import Mathlib

/-!
Shallow embedding of the bet / challenge / proof-vote lifecycle of the
project-bay backend (src/backend/app): models.py, services/bet_service.py,
services/challenge_service.py, routers/bets/bet_crud.py and
deadline_checker.py, together with proofs about the claims of the
specification.

Conventions of the embedding:
* user balances are a total function `Points : Nat → Int` (user id → points);
* a single bet aggregate (the bet row together with its challenges, proof
  votes and star records) plus the balances form the state `DB`;
* fallible endpoints return `Except Err DB`; an error models a raised
  exception, i.e. a rolled-back transaction that leaves the state unchanged
  (`applyOp` realises the rollback);
* `math.floor((a / t) * A)` on exact values is `Int.fdiv (a * A) t`
  (floor division, which agrees with the Python floor of the exact
  rational for the nonnegative values the application produces).
-/

namespace ProjectBay

/-- Lifecycle states of a bet (models.BetStatus). -/
inductive BetStatus
  | active
  | proofUnderReview
  | won
  | lost
  | cancelled
  deriving DecidableEq, Repr

/-- States of a challenge (models.ChallengeStatus). -/
inductive ChallengeStatus
  | pending
  | accepted
  | rejected
  | cancelled
  deriving DecidableEq, Repr

/-- A proof vote value ("cool" / "not_cool"). -/
inductive VoteValue
  | cool
  | notCool
  deriving DecidableEq, Repr

/-- A challenge row (models.Challenge): who staked how much, and its status. -/
structure Challenge where
  challengerId : Nat
  amount : Int
  status : ChallengeStatus
  deriving DecidableEq, Repr

/-- A proof-vote row (models.ProofVote). -/
structure ProofVote where
  userId : Nat
  vote : VoteValue
  deriving DecidableEq, Repr

/-- The bet row together with its owned collections (models.Bet, with
`creatorStake` recording the creator's original stake, which is the value
`amount` is initialised to by create_bet). -/
structure Bet where
  creator : Nat
  creatorStake : Int
  amount : Int
  status : BetStatus
  deadline : Int
  challenges : List Challenge
  votes : List ProofVote
  stars : Int
  starredBy : List Nat
  deriving DecidableEq, Repr

/-- User balances: user id → current points. -/
abbrev Points := Nat → Int

/-- The state seen by one bet's lifecycle: the bet aggregate and balances. -/
structure DB where
  bet : Bet
  points : Points

/-- The error taxonomy raised by the endpoints (app.exceptions plus the
HTTPException sites in the routers and services). -/
inductive Err
  | betNotFound
  | challengeNotFound
  | invalidAmount
  | insufficientFunds
  | forbidden
  | invalidState
  | duplicateChallenge
  | alreadyVoted
  deriving DecidableEq, Repr

/-- Credit (or, with a negative delta, debit) a user's balance. -/
def addPoints (p : Points) (uid : Nat) (d : Int) : Points :=
  fun j => if j = uid then p j + d else p j

/-- Fold a credit over a list of challenges, paying `f c` to each
challenger in list order (the payout loops of the source). -/
def creditEach (p : Points) (cs : List Challenge) (f : Challenge → Int) : Points :=
  cs.foldl (fun q c => addPoints q c.challengerId (f c)) p

/-- Sum of the `amount` column over a list of challenges. -/
def sumAmounts (cs : List Challenge) : Int :=
  (cs.map Challenge.amount).sum

/-- The challenges with status ACCEPTED. -/
def acceptedChallenges (b : Bet) : List Challenge :=
  b.challenges.filter fun c => decide (c.status = .accepted)

/-- Sum of the accepted challenge amounts. -/
def sumAccepted (cs : List Challenge) : Int :=
  sumAmounts (cs.filter fun c => decide (c.status = .accepted))

/-- The "active" challenges (status PENDING or ACCEPTED), as computed at the
proof-upload and voting sites of bet_crud.py. -/
def activeChallenges (b : Bet) : List Challenge :=
  b.challenges.filter fun c => decide (c.status = .pending ∨ c.status = .accepted)

/-- The challenges with status PENDING (the set the deadline checker pays). -/
def pendingChallenges (b : Bet) : List Challenge :=
  b.challenges.filter fun c => decide (c.status = .pending)

/-- The set of eligible voter ids `{c.challenger_id for c in active_challenges}`
(a Python set; we keep a duplicate-free list). -/
def eligibleVoterIds (b : Bet) : List Nat :=
  ((activeChallenges b).map Challenge.challengerId).dedup

/-- Number of COOL votes among a vote list. -/
def coolCount (votes : List ProofVote) : Nat :=
  (votes.filter fun pv => decide (pv.vote = .cool)).length

/-- bet_service.validate_points: amount must be positive and covered by the
user's balance. -/
def validate_points (p : Points) (uid : Nat) (amount : Int) : Except Err Unit :=
  if amount ≤ 0 then .error .invalidAmount
  else if p uid < amount then .error .insufficientFunds
  else .ok ()

/-- bet_crud.create_bet_endpoint + bet_service.create_bet: validate the
stake, debit the creator, insert the ACTIVE bet row. -/
def create_bet (p : Points) (creator : Nat) (stake : Int) (deadline : Int) :
    Except Err DB :=
  match validate_points p creator stake with
  | .error e => .error e
  | .ok _ => .ok
      { bet :=
          { creator := creator, creatorStake := stake, amount := stake,
            status := .active, deadline := deadline, challenges := [],
            votes := [], stars := 0, starredBy := [] },
        points := addPoints p creator (-stake) }

/-- challenge_service.create_challenge: checks in source order (bet active,
not self, no pending/accepted duplicate, validate_points), then debits the
challenger and appends a PENDING challenge. -/
def create_challenge (db : DB) (uid : Nat) (amount : Int) : Except Err DB :=
  if db.bet.status ≠ .active then .error .invalidState
  else if db.bet.creator = uid then .error .forbidden
  else if db.bet.challenges.any (fun c =>
      decide (c.challengerId = uid ∧ (c.status = .pending ∨ c.status = .accepted))) then
    .error .duplicateChallenge
  else match validate_points db.points uid amount with
    | .error e => .error e
    | .ok _ => .ok
        { bet := { db.bet with challenges := db.bet.challenges ++
            [{ challengerId := uid, amount := amount, status := .pending }] },
          points := addPoints db.points uid (-amount) }

/-- challenge_service.accept_challenge (the challenge is addressed by its
position `i` in the bet's challenge list): only the creator, only a PENDING
challenge, creator must cover the matching stake; then the creator is
debited, bet.amount grows, and the challenge becomes ACCEPTED.  Note that
the bet's status is never consulted. -/
def accept_challenge (db : DB) (uid : Nat) (i : Nat) : Except Err DB :=
  if db.bet.creator ≠ uid then .error .forbidden
  else match db.bet.challenges[i]? with
    | none => .error .challengeNotFound
    | some c =>
      if c.status ≠ .pending then .error .invalidState
      else match validate_points db.points uid c.amount with
        | .error e => .error e
        | .ok _ => .ok
            { bet :=
                { db.bet with
                  amount := db.bet.amount + c.amount,
                  challenges := db.bet.challenges.set i { c with status := .accepted } },
              points := addPoints db.points uid (-c.amount) }

/-- challenge_service.reject_challenge: only the creator, only PENDING;
refunds the challenger and marks the challenge REJECTED. -/
def reject_challenge (db : DB) (uid : Nat) (i : Nat) : Except Err DB :=
  if db.bet.creator ≠ uid then .error .forbidden
  else match db.bet.challenges[i]? with
    | none => .error .challengeNotFound
    | some c =>
      if c.status ≠ .pending then .error .invalidState
      else .ok
        { bet := { db.bet with
            challenges := db.bet.challenges.set i { c with status := .rejected } },
          points := addPoints db.points c.challengerId c.amount }

/-- bet_crud.upload_proof (the parts that touch the aggregate): creator only,
needs a PENDING/ACCEPTED challenger, bet ACTIVE, deadline not passed; then
the bet moves to PROOF_UNDER_REVIEW. -/
def upload_proof (db : DB) (uid : Nat) (now : Int) : Except Err DB :=
  if db.bet.creator ≠ uid then .error .forbidden
  else if ¬ db.bet.challenges.any (fun c =>
      decide (c.status = .pending ∨ c.status = .accepted)) then .error .invalidState
  else if db.bet.status ≠ .active then .error .invalidState
  else if db.bet.deadline < now then .error .invalidState
  else .ok { db with bet := { db.bet with status := .proofUnderReview } }

/-- bet_crud.vote_on_proof: bet must be PROOF_UNDER_REVIEW, voter must be an
active (pending or accepted) challenger who has not voted; the vote is
recorded and the auto-resolution check runs: a strict COOL majority of the
eligible voters resolves WON (creator credited bet.amount plus all active
stakes); otherwise, once everyone voted, the bet resolves LOST and every
active challenger is credited twice their stake. -/
def vote_on_proof (db : DB) (uid : Nat) (v : VoteValue) : Except Err DB :=
  if db.bet.status ≠ .proofUnderReview then .error .invalidState
  else if uid ∉ eligibleVoterIds db.bet then .error .forbidden
  else if db.bet.votes.any (fun pv => decide (pv.userId = uid)) then .error .alreadyVoted
  else if 2 * coolCount (db.bet.votes ++ [{ userId := uid, vote := v }]) >
      (eligibleVoterIds db.bet).length then
    .ok { bet :=
            { db.bet with
              status := .won,
              votes := db.bet.votes ++ [{ userId := uid, vote := v }] },
          points := addPoints db.points db.bet.creator
            (db.bet.amount + sumAmounts (activeChallenges db.bet)) }
  else if (db.bet.votes ++ [({ userId := uid, vote := v } : ProofVote)]).length ≥
      (eligibleVoterIds db.bet).length then
    .ok { bet :=
            { db.bet with
              status := .lost,
              votes := db.bet.votes ++ [{ userId := uid, vote := v }] },
          points := creditEach db.points (activeChallenges db.bet)
            (fun c => 2 * c.amount) }
  else
    .ok { db with bet :=
            { db.bet with
              votes := db.bet.votes ++ [{ userId := uid, vote := v }] } }

/-- bet_service.resolve_bet: only the creator (a non-creator caller gets the
not-found of the filtered query), only an ACTIVE bet; sets the requested
status, then distributes points: WON credits the creator bet.amount plus all
accepted stakes; LOST pays each accepted challenger
stake + floor(stake / total_accepted * bet.amount) when the accepted total is
positive (otherwise the pot is burned); CANCELLED refunds the creator
bet.amount and every non-REJECTED challenge its stake, marking it CANCELLED. -/
def resolve_bet (db : DB) (uid : Nat) (newStatus : BetStatus) : Except Err DB :=
  if db.bet.creator ≠ uid then .error .betNotFound
  else if db.bet.status ≠ .active then .error .invalidState
  else if newStatus = .won then
    .ok { bet := { db.bet with status := .won },
          points := addPoints db.points db.bet.creator
            (db.bet.amount + sumAccepted db.bet.challenges) }
  else if newStatus = .lost then
    if sumAccepted db.bet.challenges > 0 then
      .ok { bet := { db.bet with status := .lost },
            points := creditEach db.points (acceptedChallenges db.bet)
              (fun c => c.amount +
                Int.fdiv (c.amount * db.bet.amount) (sumAccepted db.bet.challenges)) }
    else
      .ok { bet := { db.bet with status := .lost }, points := db.points }
  else if newStatus = .cancelled then
    .ok { bet :=
            { db.bet with
              status := .cancelled,
              challenges := db.bet.challenges.map fun c =>
                if c.status ≠ .rejected then { c with status := .cancelled } else c },
          points := creditEach (addPoints db.points db.bet.creator db.bet.amount)
            (db.bet.challenges.filter fun c => decide (c.status ≠ .rejected))
            (fun c => c.amount) }
  else
    .ok { db with bet := { db.bet with status := newStatus } }

/-- bet_crud.toggle_star: unstar (remove the record, decrement clamped at 0)
if a record exists, otherwise star (append a record, increment). -/
def toggle_star (db : DB) (uid : Nat) : DB :=
  if uid ∈ db.bet.starredBy then
    { bet :=
        { db.bet with
          starredBy := db.bet.starredBy.erase uid,
          stars := max (db.bet.stars - 1) 0 },
      points := db.points }
  else
    { bet := { db.bet with
        starredBy := db.bet.starredBy ++ [uid], stars := db.bet.stars + 1 },
      points := db.points }

/-- deadline_checker._check_deadlines, loop body for one bet: an ACTIVE bet
whose deadline has passed becomes LOST, and each PENDING challenger is paid
stake + floor(stake / total_pending * bet.amount) when the pending total is
positive.  Any other bet is left untouched. -/
def check_deadline_bet (now : Int) (b : Bet) (p : Points) : Bet × Points :=
  if b.status = .active ∧ b.deadline ≤ now then
    if sumAmounts (pendingChallenges b) > 0 then
      ({ b with status := .lost },
       creditEach p (pendingChallenges b)
         (fun c => c.amount + Int.fdiv (c.amount * b.amount) (sumAmounts (pendingChallenges b))))
    else
      ({ b with status := .lost }, p)
  else (b, p)

/-- deadline_checker._check_deadlines: one sweep pass over all bets. -/
def check_deadlines (now : Int) : List Bet → Points → List Bet × Points
  | [], p => ([], p)
  | b :: bs, p =>
    let bp := check_deadline_bet now b p
    let rest := check_deadlines now bs bp.2
    (bp.1 :: rest.1, rest.2)

/-- The operations a bet lifecycle is driven by after creation. -/
inductive Op
  | challengeOp (uid : Nat) (amount : Int)
  | acceptOp (uid : Nat) (i : Nat)
  | rejectOp (uid : Nat) (i : Nat)
  | proofOp (uid : Nat) (now : Int)
  | voteOp (uid : Nat) (v : VoteValue)
  | resolveOp (uid : Nat) (st : BetStatus)
  | sweepOp (now : Int)
  | starOp (uid : Nat)

/-- A raised exception rolls the transaction back: on error the state is
unchanged. -/
def orSame (db : DB) : Except Err DB → DB
  | .ok db2 => db2
  | .error _ => db

/-- Apply one operation, with rollback-on-error semantics. -/
def applyOp (db : DB) : Op → DB
  | .challengeOp uid a => orSame db (create_challenge db uid a)
  | .acceptOp uid i => orSame db (accept_challenge db uid i)
  | .rejectOp uid i => orSame db (reject_challenge db uid i)
  | .proofOp uid now => orSame db (upload_proof db uid now)
  | .voteOp uid v => orSame db (vote_on_proof db uid v)
  | .resolveOp uid st => orSame db (resolve_bet db uid st)
  | .sweepOp now =>
      let bp := check_deadline_bet now db.bet db.points
      { bet := bp.1, points := bp.2 }
  | .starOp uid => toggle_star db uid

/-- Run a sequence of operations. -/
def run (db : DB) (ops : List Op) : DB :=
  ops.foldl applyOp db

/-- Whether an endpoint call succeeded. -/
def isOkB : Except Err DB → Bool
  | .ok _ => true
  | .error _ => false

/-- Project a value out of a successful endpoint result. -/
def okMap {α : Type} (f : DB → α) : Except Err DB → Option α
  | .ok d => some (f d)
  | .error _ => none

/-- Every registered user starts with 10 points. -/
def p10 : Points := fun _ => 10

/-- Run a scenario: a creation followed by a list of operations. -/
def runScen (start : Except Err DB) (ops : List Op) : Option DB :=
  match start with
  | .ok db0 => some (run db0 ops)
  | .error _ => none

/-! ### Basic lemmas about balances and payout folds -/

theorem addPoints_apply (p : Points) (uid : Nat) (d : Int) (j : Nat) :
    addPoints p uid d j = if j = uid then p j + d else p j := rfl

theorem addPoints_self (p : Points) (uid : Nat) (d : Int) :
    addPoints p uid d uid = p uid + d := by
  simp [addPoints]

theorem addPoints_other (p : Points) (uid : Nat) (d : Int) (j : Nat) (h : j ≠ uid) :
    addPoints p uid d j = p j := by
  simp [addPoints, h]

theorem creditEach_nil (p : Points) (f : Challenge → Int) :
    creditEach p [] f = p := rfl

theorem creditEach_cons (p : Points) (c : Challenge) (cs : List Challenge)
    (f : Challenge → Int) :
    creditEach p (c :: cs) f = creditEach (addPoints p c.challengerId (f c)) cs f := rfl

/-- Pointwise value of a payout fold: each user receives the sum of the
payouts of their own challenges in the list. -/
theorem creditEach_apply (cs : List Challenge) (p : Points) (f : Challenge → Int)
    (u : Nat) :
    creditEach p cs f u =
      p u + ((cs.filter fun c => decide (c.challengerId = u)).map f).sum := by
  induction cs generalizing p with
  | nil => simp [creditEach]
  | cons c cs ih =>
    rw [creditEach_cons, ih]
    by_cases hc : c.challengerId = u
    · subst hc
      simp [List.filter_cons, addPoints_self, add_assoc]
    · rw [addPoints_other _ _ _ _ (by simpa using Ne.symm hc)]
      simp [List.filter_cons, hc]

theorem sum_addPoints (S : Finset Nat) (p : Points) (u : Nat) (d : Int)
    (hu : u ∈ S) :
    (∑ x ∈ S, addPoints p u d x) = (∑ x ∈ S, p x) + d := by
  have h : ∀ x, addPoints p u d x = p x + (if x = u then d else 0) := by
    intro x
    by_cases hx : x = u <;> simp [addPoints, hx]
  calc (∑ x ∈ S, addPoints p u d x)
      = (∑ x ∈ S, (p x + if x = u then d else 0)) := by
        exact Finset.sum_congr rfl fun x _ => h x
    _ = (∑ x ∈ S, p x) + (∑ x ∈ S, if x = u then d else 0) := Finset.sum_add_distrib
    _ = (∑ x ∈ S, p x) + d := by
        rw [Finset.sum_ite_eq' S u fun _ => d]
        simp [hu]

/-- Total effect of a payout fold on the balances summed over any set of
users covering all the paid challengers. -/
theorem sum_creditEach (S : Finset Nat) (cs : List Challenge) (p : Points)
    (f : Challenge → Int) (h : ∀ c ∈ cs, c.challengerId ∈ S) :
    (∑ x ∈ S, creditEach p cs f x) = (∑ x ∈ S, p x) + (cs.map f).sum := by
  induction cs generalizing p with
  | nil => simp [creditEach]
  | cons c cs ih =>
    rw [creditEach_cons, ih _ (fun d hd => h d (List.mem_cons_of_mem _ hd)),
      sum_addPoints S p c.challengerId (f c) (h c (List.mem_cons_self _ _))]
    simp only [List.map_cons, List.sum_cons]
    ring

/-! ### Floor-division bounds for the proportional payouts -/

theorem ediv_add_ediv_le (a b t : Int) (ht : 0 < t) :
    a / t + b / t ≤ (a + b) / t := by
  rw [Int.le_ediv_iff_mul_le ht, add_mul]
  exact add_le_add (Int.ediv_mul_le a ht.ne') (Int.ediv_mul_le b ht.ne')

/-- The floored shares never exceed the exact total. -/
theorem sum_shares_le (l : List Int) (A t : Int) (ht : 0 < t) :
    ((l.map fun a => a * A / t).sum) ≤ l.sum * A / t := by
  induction l with
  | nil => simp [Int.ediv_nonneg]
  | cons a l ih =>
    calc a * A / t + (l.map fun a => a * A / t).sum
        ≤ a * A / t + l.sum * A / t := by exact add_le_add_left ih _
      _ ≤ (a * A + l.sum * A) / t := ediv_add_ediv_le _ _ _ ht
      _ = (a + l.sum) * A / t := by ring_nf

/-- Each floored share loses less than one point; summed over the list, the
loss is bounded by the length. -/
theorem sum_shares_ge (l : List Int) (A t : Int) (ht : 0 < t) :
    l.sum * A - (l.length : Int) * (t - 1) ≤ t * ((l.map fun a => a * A / t).sum) := by
  induction l with
  | nil => simp
  | cons a l ih =>
    have hmod : a * A % t ≤ t - 1 := by
      have := Int.emod_lt_of_pos (a * A) ht
      omega
    have hdiv : t * (a * A / t) = a * A - a * A % t := by
      have := Int.ediv_add_emod (a * A) t
      omega
    simp only [List.map_cons, List.sum_cons, List.length_cons, List.sum_cons]
    have : t * (a * A / t + (l.map fun a => a * A / t).sum) =
        t * (a * A / t) + t * ((l.map fun a => a * A / t).sum) := by ring
    rw [this, hdiv]
    push_cast
    nlinarith [ih]

@[simp] theorem sumAmounts_nil : sumAmounts [] = 0 := rfl

@[simp] theorem sumAmounts_cons (c : Challenge) (cs : List Challenge) :
    sumAmounts (c :: cs) = c.amount + sumAmounts cs := by
  simp [sumAmounts]

@[simp] theorem sumAmounts_append (l1 l2 : List Challenge) :
    sumAmounts (l1 ++ l2) = sumAmounts l1 + sumAmounts l2 := by
  simp [sumAmounts]

theorem sumAmounts_nonneg (cs : List Challenge) (h : ∀ c ∈ cs, 0 ≤ c.amount) :
    0 ≤ sumAmounts cs := by
  induction cs with
  | nil => simp
  | cons c cs ih =>
    have := h c (List.mem_cons_self _ _)
    have := ih fun d hd => h d (List.mem_cons_of_mem _ hd)
    simp only [sumAmounts_cons]
    omega

/-- Splitting a LOST payout sum into the refunded stakes plus the floored
shares of the pot. -/
theorem payout_split (cs : List Challenge) (A t : Int) (ht : 0 ≤ t) :
    (cs.map fun c => c.amount + Int.fdiv (c.amount * A) t).sum =
      sumAmounts cs + ((cs.map Challenge.amount).map fun a => a * A / t).sum := by
  induction cs with
  | nil => simp
  | cons c cs ih =>
    simp only [List.map_cons, List.sum_cons, sumAmounts_cons]
    rw [ih, Int.fdiv_eq_ediv _ ht]
    omega

/-- Two-sided bound for a LOST settlement total: paying each challenger
`stake + ⌊stake·A / T⌋` with `T` the total stake distributes all of `T + A`
except for a flooring dust of at most `(length − 1)` points. -/
theorem payout_total_bounds (cs : List Challenge) (A : Int)
    (hT : 0 < sumAmounts cs) :
    (cs.map fun c => c.amount + Int.fdiv (c.amount * A) (sumAmounts cs)).sum ≤
        sumAmounts cs + A ∧
    sumAmounts cs + A - ((cs.length : Int) - 1) ≤
        (cs.map fun c => c.amount + Int.fdiv (c.amount * A) (sumAmounts cs)).sum := by
  have hsplit := payout_split cs A (sumAmounts cs) (le_of_lt hT)
  have hsum : (cs.map Challenge.amount).sum = sumAmounts cs := rfl
  have hlen : (cs.map Challenge.amount).length = cs.length := List.length_map _ _
  have hup := sum_shares_le (cs.map Challenge.amount) A (sumAmounts cs) hT
  have hlow := sum_shares_ge (cs.map Challenge.amount) A (sumAmounts cs) hT
  rw [hsum] at hup hlow
  rw [hlen] at hlow
  rw [Int.mul_ediv_cancel_left A (ne_of_gt hT)] at hup
  have hk : 1 ≤ cs.length := by
    rcases cs with _ | ⟨c, cs⟩
    · simp at hT
    · simp
  constructor
  · rw [hsplit]; omega
  · rw [hsplit]
    have hk1 : (1 : Int) ≤ (cs.length : Int) := by exact_mod_cast hk
    by_contra hcon
    push_neg at hcon
    have h2 : ((cs.map Challenge.amount).map fun a => a * A / sumAmounts cs).sum ≤
        A - (cs.length : Int) := by omega
    have h3 : sumAmounts cs * (((cs.map Challenge.amount).map
          fun a => a * A / sumAmounts cs).sum) ≤
        sumAmounts cs * (A - (cs.length : Int)) :=
      mul_le_mul_of_nonneg_left h2 (le_of_lt hT)
    nlinarith

/-- Replacing the element at a valid index changes a filtered amount-sum by
exactly the difference of the old and new elements' contributions. -/
theorem sumAmounts_filter_set (l : List Challenge) (i : Nat) (c c' : Challenge)
    (h : l[i]? = some c) (q : Challenge → Bool) :
    sumAmounts ((l.set i c').filter q) + (if q c then c.amount else 0) =
      sumAmounts (l.filter q) + (if q c' then c'.amount else 0) := by
  induction l generalizing i with
  | nil => simp at h
  | cons a l ih =>
    cases i with
    | zero =>
      simp only [List.getElem?_cons_zero, Option.some.injEq] at h
      rw [h]
      cases hq : q c <;> cases hq' : q c' <;>
        simp [List.filter_cons, hq, hq'] <;> omega
    | succ n =>
      simp only [List.getElem?_cons_succ] at h
      have hrec := ih n h
      simp only [List.set_cons_succ]
      cases hq : q a <;> simp [List.filter_cons, hq] <;> omega

/-! ### Inversion lemmas: what a successful endpoint call tells us -/

theorem validate_points_ok {p : Points} {uid : Nat} {amount : Int}
    (h : validate_points p uid amount = .ok ()) :
    0 < amount ∧ amount ≤ p uid := by
  unfold validate_points at h
  split at h
  · exact absurd h (by simp)
  · split at h
    · exact absurd h (by simp)
    · omega

theorem validate_points_eq_ok {p : Points} {uid : Nat} {amount : Int}
    (h1 : 0 < amount) (h2 : amount ≤ p uid) :
    validate_points p uid amount = .ok () := by
  unfold validate_points
  rw [if_neg (by omega), if_neg (by omega)]

theorem create_challenge_ok {db : DB} {uid : Nat} {a : Int} {db2 : DB}
    (h : create_challenge db uid a = .ok db2) :
    db.bet.status = .active ∧ db.bet.creator ≠ uid ∧
    (db.bet.challenges.any fun c =>
      decide (c.challengerId = uid ∧
        (c.status = .pending ∨ c.status = .accepted))) = false ∧
    0 < a ∧ a ≤ db.points uid ∧
    db2.bet = { db.bet with challenges := db.bet.challenges ++
      [{ challengerId := uid, amount := a, status := .pending }] } ∧
    db2.points = addPoints db.points uid (-a) := by
  unfold create_challenge at h
  split at h
  · exact absurd h (by simp)
  · rename_i h1
    split at h
    · exact absurd h (by simp)
    · rename_i h2
      split at h
      · exact absurd h (by simp)
      · rename_i h3
        split at h
        · exact absurd h (by simp)
        · rename_i u hvp
          obtain ⟨ha1, ha2⟩ := validate_points_ok hvp
          refine ⟨by simpa using h1, h2, by simpa using h3, ha1, ha2, ?_, ?_⟩
          · exact (congrArg DB.bet (Except.ok.inj h)).symm
          · exact (congrArg DB.points (Except.ok.inj h)).symm

theorem create_challenge_eq_ok {db : DB} {uid : Nat} {a : Int}
    (h1 : db.bet.status = .active) (h2 : db.bet.creator ≠ uid)
    (h3 : (db.bet.challenges.any fun c =>
      decide (c.challengerId = uid ∧
        (c.status = .pending ∨ c.status = .accepted))) = false)
    (h4 : 0 < a) (h5 : a ≤ db.points uid) :
    create_challenge db uid a = .ok
      { bet := { db.bet with challenges := db.bet.challenges ++
          [{ challengerId := uid, amount := a, status := .pending }] },
        points := addPoints db.points uid (-a) } := by
  unfold create_challenge
  rw [if_neg (by simp [h1]), if_neg h2,
    if_neg (by rw [h3]; exact Bool.false_ne_true),
    validate_points_eq_ok h4 h5]

theorem accept_challenge_ok {db : DB} {uid : Nat} {i : Nat} {db2 : DB}
    (h : accept_challenge db uid i = .ok db2) :
    ∃ c, db.bet.creator = uid ∧ db.bet.challenges[i]? = some c ∧
      c.status = .pending ∧ 0 < c.amount ∧ c.amount ≤ db.points uid ∧
      db2.bet =
        { db.bet with
          amount := db.bet.amount + c.amount,
          challenges := db.bet.challenges.set i { c with status := .accepted } } ∧
      db2.points = addPoints db.points uid (-c.amount) := by
  unfold accept_challenge at h
  split at h
  · exact absurd h (by simp)
  · rename_i h1
    split at h
    · exact absurd h (by simp)
    · rename_i c hc
      split at h
      · exact absurd h (by simp)
      · rename_i h2
        split at h
        · exact absurd h (by simp)
        · rename_i u hvp
          obtain ⟨ha1, ha2⟩ := validate_points_ok hvp
          refine ⟨c, by simpa using h1, hc, by simpa using h2, ha1, ha2, ?_, ?_⟩
          · exact (congrArg DB.bet (Except.ok.inj h)).symm
          · exact (congrArg DB.points (Except.ok.inj h)).symm

theorem accept_challenge_eq_ok {db : DB} {uid : Nat} {i : Nat} {c : Challenge}
    (h1 : db.bet.creator = uid) (h2 : db.bet.challenges[i]? = some c)
    (h3 : c.status = .pending) (h4 : 0 < c.amount) (h5 : c.amount ≤ db.points uid) :
    accept_challenge db uid i = .ok
      { bet :=
          { db.bet with
            amount := db.bet.amount + c.amount,
            challenges := db.bet.challenges.set i { c with status := .accepted } },
        points := addPoints db.points uid (-c.amount) } := by
  unfold accept_challenge
  rw [if_neg (by simp [h1]), h2]
  simp only [if_neg (by simp [h3] : ¬ c.status ≠ ChallengeStatus.pending)]
  rw [validate_points_eq_ok h4 h5]

theorem reject_challenge_ok {db : DB} {uid : Nat} {i : Nat} {db2 : DB}
    (h : reject_challenge db uid i = .ok db2) :
    ∃ c, db.bet.creator = uid ∧ db.bet.challenges[i]? = some c ∧
      c.status = .pending ∧
      db2.bet =
        { db.bet with
          challenges := db.bet.challenges.set i { c with status := .rejected } } ∧
      db2.points = addPoints db.points c.challengerId c.amount := by
  unfold reject_challenge at h
  split at h
  · exact absurd h (by simp)
  · rename_i h1
    split at h
    · exact absurd h (by simp)
    · rename_i c hc
      split at h
      · exact absurd h (by simp)
      · rename_i h2
        refine ⟨c, by simpa using h1, hc, by simpa using h2, ?_, ?_⟩
        · exact (congrArg DB.bet (Except.ok.inj h)).symm
        · exact (congrArg DB.points (Except.ok.inj h)).symm

theorem upload_proof_ok {db : DB} {uid : Nat} {now : Int} {db2 : DB}
    (h : upload_proof db uid now = .ok db2) :
    db.bet.creator = uid ∧
    (db.bet.challenges.any fun c =>
      decide (c.status = .pending ∨ c.status = .accepted)) = true ∧
    db.bet.status = .active ∧ now ≤ db.bet.deadline ∧
    db2.bet = { db.bet with status := .proofUnderReview } ∧
    db2.points = db.points := by
  unfold upload_proof at h
  split at h
  · exact absurd h (by simp)
  · rename_i h1
    split at h
    · exact absurd h (by simp)
    · rename_i h2
      split at h
      · exact absurd h (by simp)
      · rename_i h3
        split at h
        · exact absurd h (by simp)
        · rename_i h4
          refine ⟨by simpa using h1, not_not.mp h2, by simpa using h3,
            by omega, ?_, ?_⟩
          · exact (congrArg DB.bet (Except.ok.inj h)).symm
          · exact (congrArg DB.points (Except.ok.inj h)).symm

theorem vote_on_proof_ok {db : DB} {uid : Nat} {v : VoteValue} {db2 : DB}
    (h : vote_on_proof db uid v = .ok db2) :
    db.bet.status = .proofUnderReview ∧ uid ∈ eligibleVoterIds db.bet ∧
    (db.bet.votes.any fun pv => decide (pv.userId = uid)) = false ∧
    db2.bet.votes = db.bet.votes ++ [{ userId := uid, vote := v }] ∧
    ((2 * coolCount (db.bet.votes ++ [{ userId := uid, vote := v }]) >
        (eligibleVoterIds db.bet).length ∧
      db2.bet =
        { db.bet with
          status := .won,
          votes := db.bet.votes ++ [{ userId := uid, vote := v }] } ∧
      db2.points = addPoints db.points db.bet.creator
        (db.bet.amount + sumAmounts (activeChallenges db.bet))) ∨
     (¬ 2 * coolCount (db.bet.votes ++ [{ userId := uid, vote := v }]) >
        (eligibleVoterIds db.bet).length ∧
      (db.bet.votes ++ [({ userId := uid, vote := v } : ProofVote)]).length ≥
        (eligibleVoterIds db.bet).length ∧
      db2.bet =
        { db.bet with
          status := .lost,
          votes := db.bet.votes ++ [{ userId := uid, vote := v }] } ∧
      db2.points = creditEach db.points (activeChallenges db.bet)
        (fun c => 2 * c.amount)) ∨
     (¬ 2 * coolCount (db.bet.votes ++ [{ userId := uid, vote := v }]) >
        (eligibleVoterIds db.bet).length ∧
      ¬ (db.bet.votes ++ [({ userId := uid, vote := v } : ProofVote)]).length ≥
        (eligibleVoterIds db.bet).length ∧
      db2.bet =
        { db.bet with votes := db.bet.votes ++ [{ userId := uid, vote := v }] } ∧
      db2.points = db.points)) := by
  unfold vote_on_proof at h
  split at h
  · exact absurd h (by simp)
  · rename_i h1
    split at h
    · exact absurd h (by simp)
    · rename_i h2
      split at h
      · exact absurd h (by simp)
      · rename_i h3
        split at h
        · rename_i h4
          refine ⟨by simpa using h1, not_not.mp h2, by simpa using h3, ?_, ?_⟩
          · rw [← Except.ok.inj h]
          · exact Or.inl ⟨h4, (Except.ok.inj h).symm ▸ rfl,
              (congrArg DB.points (Except.ok.inj h)).symm⟩
        · rename_i h4
          split at h
          · rename_i h5
            refine ⟨by simpa using h1, not_not.mp h2, by simpa using h3, ?_, ?_⟩
            · rw [← Except.ok.inj h]
            · exact Or.inr (Or.inl ⟨h4, h5, (Except.ok.inj h).symm ▸ rfl,
                (congrArg DB.points (Except.ok.inj h)).symm⟩)
          · rename_i h5
            refine ⟨by simpa using h1, not_not.mp h2, by simpa using h3, ?_, ?_⟩
            · rw [← Except.ok.inj h]
            · exact Or.inr (Or.inr ⟨h4, h5, (Except.ok.inj h).symm ▸ rfl,
                (congrArg DB.points (Except.ok.inj h)).symm⟩)

theorem vote_on_proof_isOk {db : DB} {uid : Nat} {v : VoteValue}
    (h1 : db.bet.status = .proofUnderReview) (h2 : uid ∈ eligibleVoterIds db.bet)
    (h3 : (db.bet.votes.any fun pv => decide (pv.userId = uid)) = false) :
    isOkB (vote_on_proof db uid v) = true := by
  unfold vote_on_proof
  rw [if_neg (by simp [h1]), if_neg (by simpa using h2),
    if_neg (by rw [h3]; exact Bool.false_ne_true)]
  split
  · rfl
  · split
    · rfl
    · rfl

theorem resolve_bet_ok {db : DB} {uid : Nat} {st : BetStatus} {db2 : DB}
    (h : resolve_bet db uid st = .ok db2) :
    db.bet.creator = uid ∧ db.bet.status = .active ∧
    ((st = .won ∧
      db2.bet = { db.bet with status := .won } ∧
      db2.points = addPoints db.points db.bet.creator
        (db.bet.amount + sumAccepted db.bet.challenges)) ∨
     (st = .lost ∧ 0 < sumAccepted db.bet.challenges ∧
      db2.bet = { db.bet with status := .lost } ∧
      db2.points = creditEach db.points (acceptedChallenges db.bet)
        (fun c => c.amount +
          Int.fdiv (c.amount * db.bet.amount) (sumAccepted db.bet.challenges))) ∨
     (st = .lost ∧ sumAccepted db.bet.challenges ≤ 0 ∧
      db2.bet = { db.bet with status := .lost } ∧
      db2.points = db.points) ∨
     (st = .cancelled ∧
      db2.bet =
        { db.bet with
          status := .cancelled,
          challenges := db.bet.challenges.map fun c =>
            if c.status ≠ .rejected then { c with status := .cancelled } else c } ∧
      db2.points = creditEach (addPoints db.points db.bet.creator db.bet.amount)
        (db.bet.challenges.filter fun c => decide (c.status ≠ .rejected))
        (fun c => c.amount)) ∨
     (st ≠ .won ∧ st ≠ .lost ∧ st ≠ .cancelled ∧
      db2.bet = { db.bet with status := st } ∧
      db2.points = db.points)) := by
  unfold resolve_bet at h
  split at h
  · exact absurd h (by simp)
  · rename_i h1
    split at h
    · exact absurd h (by simp)
    · rename_i h2
      refine ⟨by simpa using h1, by simpa using h2, ?_⟩
      split at h
      · rename_i h3
        exact Or.inl ⟨h3, (Except.ok.inj h).symm ▸ rfl,
          (congrArg DB.points (Except.ok.inj h)).symm⟩
      · rename_i h3
        split at h
        · rename_i h4
          split at h
          · rename_i h5
            exact Or.inr (Or.inl ⟨h4, h5, (Except.ok.inj h).symm ▸ rfl,
              (congrArg DB.points (Except.ok.inj h)).symm⟩)
          · rename_i h5
            exact Or.inr (Or.inr (Or.inl ⟨h4, by omega, (Except.ok.inj h).symm ▸ rfl,
              (congrArg DB.points (Except.ok.inj h)).symm⟩))
        · rename_i h4
          split at h
          · rename_i h5
            exact Or.inr (Or.inr (Or.inr (Or.inl ⟨h5, (Except.ok.inj h).symm ▸ rfl,
              (congrArg DB.points (Except.ok.inj h)).symm⟩)))
          · rename_i h5
            exact Or.inr (Or.inr (Or.inr (Or.inr ⟨h3, h4, h5,
              (Except.ok.inj h).symm ▸ rfl,
              (congrArg DB.points (Except.ok.inj h)).symm⟩)))

theorem resolve_bet_eq_won {db : DB} {uid : Nat}
    (h1 : db.bet.creator = uid) (h2 : db.bet.status = .active) :
    resolve_bet db uid .won = .ok
      { bet := { db.bet with status := .won },
        points := addPoints db.points db.bet.creator
          (db.bet.amount + sumAccepted db.bet.challenges) } := by
  unfold resolve_bet
  rw [if_neg (by simp [h1]), if_neg (by simp [h2]), if_pos rfl]

theorem resolve_bet_eq_lost {db : DB} {uid : Nat}
    (h1 : db.bet.creator = uid) (h2 : db.bet.status = .active)
    (h3 : 0 < sumAccepted db.bet.challenges) :
    resolve_bet db uid .lost = .ok
      { bet := { db.bet with status := .lost },
        points := creditEach db.points (acceptedChallenges db.bet)
          (fun c => c.amount +
            Int.fdiv (c.amount * db.bet.amount) (sumAccepted db.bet.challenges)) } := by
  unfold resolve_bet
  rw [if_neg (by simp [h1]), if_neg (by simp [h2]),
    if_neg (by simp), if_pos rfl, if_pos h3]

theorem resolve_bet_eq_cancelled {db : DB} {uid : Nat}
    (h1 : db.bet.creator = uid) (h2 : db.bet.status = .active) :
    resolve_bet db uid .cancelled = .ok
      { bet :=
          { db.bet with
            status := .cancelled,
            challenges := db.bet.challenges.map fun c =>
              if c.status ≠ .rejected then { c with status := .cancelled } else c },
        points := creditEach (addPoints db.points db.bet.creator db.bet.amount)
          (db.bet.challenges.filter fun c => decide (c.status ≠ .rejected))
          (fun c => c.amount) } := by
  unfold resolve_bet
  rw [if_neg (by simp [h1]), if_neg (by simp [h2]),
    if_neg (by simp), if_neg (by simp), if_pos rfl]

theorem check_deadline_bet_expired {now : Int} {b : Bet} {p : Points}
    (h1 : b.status = .active) (h2 : b.deadline ≤ now) :
    check_deadline_bet now b p =
      if sumAmounts (pendingChallenges b) > 0 then
        ({ b with status := .lost },
         creditEach p (pendingChallenges b)
           (fun c => c.amount +
             Int.fdiv (c.amount * b.amount) (sumAmounts (pendingChallenges b))))
      else ({ b with status := .lost }, p) := by
  unfold check_deadline_bet
  rw [if_pos ⟨h1, h2⟩]

theorem check_deadline_bet_skip {now : Int} {b : Bet} {p : Points}
    (h : ¬ (b.status = .active ∧ b.deadline ≤ now)) :
    check_deadline_bet now b p = (b, p) := by
  unfold check_deadline_bet
  rw [if_neg h]

/-! ### The lifecycle ledger invariant -/

/-- The points currently held (debited and not yet returned) from user `u` by
the bet's lifecycle while it is still undecided: the matched pot `amount` for
the creator, plus `u`'s own PENDING/ACCEPTED challenge stakes. -/
def heldBy (b : Bet) (u : Nat) : Int :=
  (if u = b.creator then b.amount else 0) +
  sumAmounts (b.challenges.filter fun c =>
    decide ((c.status = .pending ∨ c.status = .accepted) ∧ c.challengerId = u))

theorem heldBy_append_pending (b : Bet) (uid : Nat) (a : Int) (u : Nat) :
    heldBy { b with challenges := b.challenges ++
      [{ challengerId := uid, amount := a, status := .pending }] } u =
    heldBy b u + (if u = uid then a else 0) := by
  unfold heldBy
  simp only [List.filter_append, sumAmounts_append]
  by_cases h : uid = u <;>
    simp [List.filter_cons, h, eq_comm] <;> omega

theorem heldBy_set_accept (b : Bet) (i : Nat) (c : Challenge)
    (hget : b.challenges[i]? = some c) (hc : c.status = .pending) (u : Nat) :
    heldBy
      { b with
        amount := b.amount + c.amount,
        challenges := b.challenges.set i { c with status := .accepted } } u =
    heldBy b u + (if u = b.creator then c.amount else 0) := by
  unfold heldBy
  have hs := sumAmounts_filter_set b.challenges i c { c with status := .accepted }
    hget (fun c => decide ((c.status = .pending ∨ c.status = .accepted) ∧
      c.challengerId = u))
  simp only [hc] at hs
  by_cases h : u = b.creator <;> by_cases h2 : c.challengerId = u <;>
    simp [h, h2] at hs ⊢ <;> omega

theorem heldBy_set_reject (b : Bet) (i : Nat) (c : Challenge)
    (hget : b.challenges[i]? = some c) (hc : c.status = .pending) (u : Nat) :
    heldBy
      { b with challenges := b.challenges.set i { c with status := .rejected } } u =
    heldBy b u - (if u = c.challengerId then c.amount else 0) := by
  unfold heldBy
  have hs := sumAmounts_filter_set b.challenges i c { c with status := .rejected }
    hget (fun c => decide ((c.status = .pending ∨ c.status = .accepted) ∧
      c.challengerId = u))
  simp only [hc] at hs
  by_cases h : u = b.creator <;> by_cases h2 : c.challengerId = u <;>
    simp [h, h2, eq_comm] at hs ⊢ <;> omega

theorem sumAccepted_append_pending (l : List Challenge) (uid : Nat) (a : Int) :
    sumAccepted (l ++ [{ challengerId := uid, amount := a, status := .pending }]) =
      sumAccepted l := by
  simp [sumAccepted, List.filter_append, List.filter_cons]

theorem sumAccepted_set_accept (l : List Challenge) (i : Nat) (c : Challenge)
    (hget : l[i]? = some c) (hc : c.status = .pending) :
    sumAccepted (l.set i { c with status := .accepted }) = sumAccepted l + c.amount := by
  unfold sumAccepted
  have hs := sumAmounts_filter_set l i c { c with status := .accepted }
    hget (fun c => decide (c.status = .accepted))
  simp only [hc] at hs
  simp at hs ⊢
  omega

theorem sumAccepted_set_reject (l : List Challenge) (i : Nat) (c : Challenge)
    (hget : l[i]? = some c) (hc : c.status = .pending) :
    sumAccepted (l.set i { c with status := .rejected }) = sumAccepted l := by
  unfold sumAccepted
  have hs := sumAmounts_filter_set l i c { c with status := .rejected }
    hget (fun c => decide (c.status = .accepted))
  simp only [hc] at hs
  simp at hs ⊢
  omega

/-- Invariant of every state reachable from a successful bet creation:
the bet's identity fields are stable, `amount` tracks the creator's stake
plus the accepted stakes until cancellation, every balance equals its initial
value minus what the undecided bet holds, no challenge is CANCELLED before
the bet itself is, and all challenge stakes are positive. -/
structure Inv (p0 : Points) (creator : Nat) (stake : Int) (db : DB) : Prop where
  creator_eq : db.bet.creator = creator
  stake_eq : db.bet.creatorStake = stake
  amount_eq : db.bet.status ≠ .cancelled →
    db.bet.amount = stake + sumAccepted db.bet.challenges
  ledger : db.bet.status = .active ∨ db.bet.status = .proofUnderReview →
    ∀ u, db.points u = p0 u - heldBy db.bet u
  noCancelled : db.bet.status = .active ∨ db.bet.status = .proofUnderReview →
    ∀ c ∈ db.bet.challenges, c.status ≠ .cancelled
  amounts_pos : ∀ c ∈ db.bet.challenges, 0 < c.amount

theorem inv_create_bet {p0 : Points} {creator : Nat} {stake dl : Int} {db0 : DB}
    (h : create_bet p0 creator stake dl = .ok db0) : Inv p0 creator stake db0 := by
  unfold create_bet at h
  split at h
  · exact absurd h (by simp)
  · rename_i u hvp
    rw [← Except.ok.inj h]
    refine ⟨rfl, rfl, ?_, ?_, ?_, ?_⟩
    · intro _
      simp [sumAccepted]
    · intro _ u2
      unfold heldBy addPoints
      by_cases hu : u2 = creator <;> simp [hu] <;> omega
    · intro _ c hc
      simp at hc
    · intro c hc
      simp at hc

/-- Every operation preserves the lifecycle invariant. -/
theorem inv_applyOp {p0 : Points} {creator : Nat} {stake : Int} {db : DB}
    (hI : Inv p0 creator stake db) (op : Op) :
    Inv p0 creator stake (applyOp db op) := by
  cases op with
  | challengeOp uid a =>
    cases hres : create_challenge db uid a with
    | error e => simpa [applyOp, orSame, hres] using hI
    | ok db2 =>
      simp only [applyOp, orSame, hres]
      obtain ⟨hst, hne, hdup, ha1, ha2, hbet, hpts⟩ := create_challenge_ok hres
      refine ⟨?_, ?_, ?_, ?_, ?_, ?_⟩
      · simp only [hbet]; exact hI.creator_eq
      · simp only [hbet]; exact hI.stake_eq
      · intro _
        simp only [hbet, sumAccepted_append_pending]
        exact hI.amount_eq (by rw [hst]; simp)
      · intro _ u
        rw [hpts, hbet]
        have hle := hI.ledger (Or.inl hst) u
        rw [heldBy_append_pending]
        unfold addPoints
        by_cases hu : u = uid
        · subst hu
          rw [if_pos rfl, if_pos rfl]
          omega
        · rw [if_neg hu, if_neg hu]
          omega
      · intro _ c hc
        simp only [hbet] at hc
        rcases List.mem_append.mp hc with hc | hc
        · exact hI.noCancelled (Or.inl hst) c hc
        · simp at hc
          rw [hc]
          simp
      · intro c hc
        simp only [hbet] at hc
        rcases List.mem_append.mp hc with hc | hc
        · exact hI.amounts_pos c hc
        · simp at hc
          rw [hc]
          exact ha1
  | acceptOp uid i =>
    cases hres : accept_challenge db uid i with
    | error e => simpa [applyOp, orSame, hres] using hI
    | ok db2 =>
      simp only [applyOp, orSame, hres]
      obtain ⟨c, hcr, hget, hcp, ha1, ha2, hbet, hpts⟩ := accept_challenge_ok hres
      refine ⟨?_, ?_, ?_, ?_, ?_, ?_⟩
      · simp only [hbet]; exact hI.creator_eq
      · simp only [hbet]; exact hI.stake_eq
      · intro hpost
        simp only [hbet] at hpost ⊢
        rw [sumAccepted_set_accept db.bet.challenges i c hget hcp]
        have := hI.amount_eq hpost
        omega
      · intro hpost u
        simp only [hbet] at hpost
        rw [hpts, hbet]
        have hle := hI.ledger hpost u
        rw [heldBy_set_accept db.bet i c hget hcp]
        unfold addPoints
        rw [hcr]
        by_cases hu : u = uid
        · subst hu
          rw [if_pos rfl, if_pos rfl]
          omega
        · rw [if_neg hu, if_neg hu]
          omega
      · intro hpost c2 hc2
        simp only [hbet] at hpost hc2
        rcases List.mem_or_eq_of_mem_set hc2 with hc2 | hc2
        · exact hI.noCancelled hpost c2 hc2
        · rw [hc2]; simp
      · intro c2 hc2
        simp only [hbet] at hc2
        rcases List.mem_or_eq_of_mem_set hc2 with hc2 | hc2
        · exact hI.amounts_pos c2 hc2
        · rw [hc2]; exact ha1
  | rejectOp uid i =>
    cases hres : reject_challenge db uid i with
    | error e => simpa [applyOp, orSame, hres] using hI
    | ok db2 =>
      simp only [applyOp, orSame, hres]
      obtain ⟨c, hcr, hget, hcp, hbet, hpts⟩ := reject_challenge_ok hres
      refine ⟨?_, ?_, ?_, ?_, ?_, ?_⟩
      · simp only [hbet]; exact hI.creator_eq
      · simp only [hbet]; exact hI.stake_eq
      · intro hpost
        simp only [hbet] at hpost ⊢
        rw [sumAccepted_set_reject db.bet.challenges i c hget hcp]
        exact hI.amount_eq hpost
      · intro hpost u
        simp only [hbet] at hpost
        rw [hpts, hbet]
        have hle := hI.ledger hpost u
        rw [heldBy_set_reject db.bet i c hget hcp]
        unfold addPoints
        by_cases hu : u = c.challengerId
        · subst hu
          rw [if_pos rfl, if_pos rfl]
          omega
        · rw [if_neg hu, if_neg hu]
          omega
      · intro hpost c2 hc2
        simp only [hbet] at hpost hc2
        rcases List.mem_or_eq_of_mem_set hc2 with hc2 | hc2
        · exact hI.noCancelled hpost c2 hc2
        · rw [hc2]; simp
      · intro c2 hc2
        simp only [hbet] at hc2
        rcases List.mem_or_eq_of_mem_set hc2 with hc2 | hc2
        · exact hI.amounts_pos c2 hc2
        · rw [hc2]
          simpa using hI.amounts_pos c (List.getElem?_mem hget)
  | proofOp uid now =>
    cases hres : upload_proof db uid now with
    | error e => simpa [applyOp, orSame, hres] using hI
    | ok db2 =>
      simp only [applyOp, orSame, hres]
      obtain ⟨hcr, hch, hst, hdl, hbet, hpts⟩ := upload_proof_ok hres
      refine ⟨?_, ?_, ?_, ?_, ?_, ?_⟩
      · simp only [hbet]; exact hI.creator_eq
      · simp only [hbet]; exact hI.stake_eq
      · intro _
        simp only [hbet]
        exact hI.amount_eq (by rw [hst]; simp)
      · intro _ u
        rw [hpts, hbet]
        have hle := hI.ledger (Or.inl hst) u
        unfold heldBy at hle ⊢
        simpa using hle
      · intro _ c hc
        simp only [hbet] at hc
        exact hI.noCancelled (Or.inl hst) c hc
      · intro c hc
        simp only [hbet] at hc
        exact hI.amounts_pos c hc
  | voteOp uid v =>
    cases hres : vote_on_proof db uid v with
    | error e => simpa [applyOp, orSame, hres] using hI
    | ok db2 =>
      simp only [applyOp, orSame, hres]
      obtain ⟨hst, helig, hnov, hvotes, hcase⟩ := vote_on_proof_ok hres
      rcases hcase with ⟨hmaj, hbet, hpts⟩ | ⟨hmaj, hall, hbet, hpts⟩ |
        ⟨hmaj, hall, hbet, hpts⟩
      · refine ⟨?_, ?_, ?_, ?_, ?_, ?_⟩
        · simp only [hbet]; exact hI.creator_eq
        · simp only [hbet]; exact hI.stake_eq
        · intro _
          simp only [hbet]
          exact hI.amount_eq (by rw [hst]; simp)
        · intro hpost
          simp only [hbet] at hpost
          rcases hpost with h | h <;> simp at h
        · intro hpost
          simp only [hbet] at hpost
          rcases hpost with h | h <;> simp at h
        · intro c hc
          simp only [hbet] at hc
          exact hI.amounts_pos c hc
      · refine ⟨?_, ?_, ?_, ?_, ?_, ?_⟩
        · simp only [hbet]; exact hI.creator_eq
        · simp only [hbet]; exact hI.stake_eq
        · intro _
          simp only [hbet]
          exact hI.amount_eq (by rw [hst]; simp)
        · intro hpost
          simp only [hbet] at hpost
          rcases hpost with h | h <;> simp at h
        · intro hpost
          simp only [hbet] at hpost
          rcases hpost with h | h <;> simp at h
        · intro c hc
          simp only [hbet] at hc
          exact hI.amounts_pos c hc
      · refine ⟨?_, ?_, ?_, ?_, ?_, ?_⟩
        · simp only [hbet]; exact hI.creator_eq
        · simp only [hbet]; exact hI.stake_eq
        · intro _
          simp only [hbet]
          exact hI.amount_eq (by rw [hst]; simp)
        · intro _ u
          rw [hpts, hbet]
          have hle := hI.ledger (Or.inr hst) u
          unfold heldBy at hle ⊢
          simpa using hle
        · intro _ c hc
          simp only [hbet] at hc
          exact hI.noCancelled (Or.inr hst) c hc
        · intro c hc
          simp only [hbet] at hc
          exact hI.amounts_pos c hc
  | resolveOp uid st =>
    cases hres : resolve_bet db uid st with
    | error e => simpa [applyOp, orSame, hres] using hI
    | ok db2 =>
      simp only [applyOp, orSame, hres]
      obtain ⟨hcr, hst, hcase⟩ := resolve_bet_ok hres
      rcases hcase with ⟨hw, hbet, hpts⟩ | ⟨hw, htot, hbet, hpts⟩ |
        ⟨hw, htot, hbet, hpts⟩ | ⟨hw, hbet, hpts⟩ | ⟨h1, h2, h3, hbet, hpts⟩
      · refine ⟨?_, ?_, ?_, ?_, ?_, ?_⟩
        · simp only [hbet]; exact hI.creator_eq
        · simp only [hbet]; exact hI.stake_eq
        · intro _
          simp only [hbet]
          exact hI.amount_eq (by rw [hst]; simp)
        · intro hpost
          simp only [hbet] at hpost
          rcases hpost with h | h <;> simp at h
        · intro hpost
          simp only [hbet] at hpost
          rcases hpost with h | h <;> simp at h
        · intro c hc
          simp only [hbet] at hc
          exact hI.amounts_pos c hc
      · refine ⟨?_, ?_, ?_, ?_, ?_, ?_⟩
        · simp only [hbet]; exact hI.creator_eq
        · simp only [hbet]; exact hI.stake_eq
        · intro _
          simp only [hbet]
          exact hI.amount_eq (by rw [hst]; simp)
        · intro hpost
          simp only [hbet] at hpost
          rcases hpost with h | h <;> simp at h
        · intro hpost
          simp only [hbet] at hpost
          rcases hpost with h | h <;> simp at h
        · intro c hc
          simp only [hbet] at hc
          exact hI.amounts_pos c hc
      · refine ⟨?_, ?_, ?_, ?_, ?_, ?_⟩
        · simp only [hbet]; exact hI.creator_eq
        · simp only [hbet]; exact hI.stake_eq
        · intro _
          simp only [hbet]
          exact hI.amount_eq (by rw [hst]; simp)
        · intro hpost
          simp only [hbet] at hpost
          rcases hpost with h | h <;> simp at h
        · intro hpost
          simp only [hbet] at hpost
          rcases hpost with h | h <;> simp at h
        · intro c hc
          simp only [hbet] at hc
          exact hI.amounts_pos c hc
      · refine ⟨?_, ?_, ?_, ?_, ?_, ?_⟩
        · simp only [hbet]; exact hI.creator_eq
        · simp only [hbet]; exact hI.stake_eq
        · intro hpost
          simp only [hbet] at hpost
          simp at hpost
        · intro hpost
          simp only [hbet] at hpost
          rcases hpost with h | h <;> simp at h
        · intro hpost
          simp only [hbet] at hpost
          rcases hpost with h | h <;> simp at h
        · intro c hc
          simp only [hbet] at hc
          obtain ⟨c0, hc0, hc0e⟩ := List.mem_map.mp hc
          have := hI.amounts_pos c0 hc0
          rw [← hc0e]
          split <;> simpa
      · refine ⟨?_, ?_, ?_, ?_, ?_, ?_⟩
        · simp only [hbet]; exact hI.creator_eq
        · simp only [hbet]; exact hI.stake_eq
        · intro hpost
          simp only [hbet] at hpost ⊢
          exact hI.amount_eq (by rw [hst]; simp)
        · intro _ u
          rw [hpts, hbet]
          have hle := hI.ledger (Or.inl hst) u
          unfold heldBy at hle ⊢
          simpa using hle
        · intro _ c hc
          simp only [hbet] at hc
          exact hI.noCancelled (Or.inl hst) c hc
        · intro c hc
          simp only [hbet] at hc
          exact hI.amounts_pos c hc
  | sweepOp now =>
    by_cases hcond : db.bet.status = .active ∧ db.bet.deadline ≤ now
    · have hexp := check_deadline_bet_expired (b := db.bet) (p := db.points)
        hcond.1 hcond.2
      by_cases hts : sumAmounts (pendingChallenges db.bet) > 0 <;>
        [rw [if_pos hts] at hexp; rw [if_neg hts] at hexp] <;>
        simp only [applyOp, hexp] <;>
        refine ⟨hI.creator_eq, hI.stake_eq, ?_, ?_, ?_, hI.amounts_pos⟩ <;>
        try intro hpost
      · exact hI.amount_eq (by rw [hcond.1]; simp)
      · rcases hpost with h | h <;> simp at h
      · rcases hpost with h | h <;> simp at h
      · exact hI.amount_eq (by rw [hcond.1]; simp)
      · rcases hpost with h | h <;> simp at h
      · rcases hpost with h | h <;> simp at h
    · simp only [applyOp, check_deadline_bet_skip hcond]
      exact ⟨hI.creator_eq, hI.stake_eq, hI.amount_eq, hI.ledger,
        hI.noCancelled, hI.amounts_pos⟩
  | starOp uid =>
    by_cases hm : uid ∈ db.bet.starredBy <;>
      simp only [applyOp, toggle_star, hm, if_pos, if_neg, ite_true, ite_false] <;>
      exact ⟨hI.creator_eq, hI.stake_eq, hI.amount_eq,
        fun hpost u => by
          have := hI.ledger hpost u
          unfold heldBy at this ⊢
          simpa using this,
        hI.noCancelled, hI.amounts_pos⟩

/-- The lifecycle invariant holds in every reachable state. -/
theorem inv_run {p0 : Points} {creator : Nat} {stake : Int} {db : DB}
    (hI : Inv p0 creator stake db) (ops : List Op) :
    Inv p0 creator stake (run db ops) := by
  induction ops generalizing db with
  | nil => exact hI
  | cons op ops ih => exact ih (inv_applyOp hI op)

/-! ### Claim theorems -/

theorem check_deadline_bet_second (now : Int) (b : Bet) (p q : Points) :
    check_deadline_bet now (check_deadline_bet now b p).1 q =
      ((check_deadline_bet now b p).1, q) := by
  by_cases hcond : b.status = .active ∧ b.deadline ≤ now
  · rw [check_deadline_bet_expired hcond.1 hcond.2]
    split <;> exact check_deadline_bet_skip (by simp)
  · rw [check_deadline_bet_skip hcond]
    exact check_deadline_bet_skip hcond

/-- C8: the deadline sweep pass is idempotent — a second pass run immediately
on the output of a first pass changes no bet and no balance, so no bet is
ever paid twice. -/
theorem C8_sweep_idempotent (now : Int) (bets : List Bet) (p : Points) :
    check_deadlines now (check_deadlines now bets p).1 (check_deadlines now bets p).2 =
      check_deadlines now bets p := by
  induction bets generalizing p with
  | nil => rfl
  | cons b bs ih =>
    show check_deadlines now
      ((check_deadline_bet now b p).1 :: (check_deadlines now bs (check_deadline_bet now b p).2).1)
      (check_deadlines now bs (check_deadline_bet now b p).2).2 = _
    rw [show ∀ x y z, check_deadlines now (x :: y) z =
        ((check_deadline_bet now x z).1 ::
          (check_deadlines now y (check_deadline_bet now x z).2).1,
         (check_deadlines now y (check_deadline_bet now x z).2).2)
      from fun x y z => rfl]
    rw [check_deadline_bet_second]
    rw [ih]
    rfl

theorem toggle_star_stars_nonneg (db : DB) (uid : Nat)
    (h : 0 ≤ db.bet.stars) : 0 ≤ (toggle_star db uid).bet.stars := by
  unfold toggle_star
  split
  · exact le_max_right _ _
  · simpa using by omega

theorem foldl_toggle_star_nonneg (ops : List Nat) (db : DB)
    (h : 0 ≤ db.bet.stars) : 0 ≤ (ops.foldl toggle_star db).bet.stars := by
  induction ops generalizing db with
  | nil => exact h
  | cons uid ops ih => exact ih _ (toggle_star_stars_nonneg db uid h)

/-- C10: for a bet whose star count agrees with its (duplicate-free) star
records, toggling a star twice by the same user restores the star count and
the set of star records, and leaves balances and every other bet field
unchanged; moreover the star count never becomes negative under any sequence
of toggles. -/
theorem C10_star_toggle (db : DB) (uid : Nat)
    (hnd : db.bet.starredBy.Nodup)
    (hcnt : db.bet.stars = (db.bet.starredBy.length : Int)) :
    ((toggle_star (toggle_star db uid) uid).bet.stars = db.bet.stars ∧
     List.Perm (toggle_star (toggle_star db uid) uid).bet.starredBy db.bet.starredBy ∧
     (toggle_star (toggle_star db uid) uid).points = db.points ∧
     (toggle_star (toggle_star db uid) uid).bet.status = db.bet.status ∧
     (toggle_star (toggle_star db uid) uid).bet.challenges = db.bet.challenges ∧
     (toggle_star (toggle_star db uid) uid).bet.amount = db.bet.amount) ∧
    ∀ ops : List Nat, 0 ≤ (ops.foldl toggle_star db).bet.stars := by
  constructor
  · by_cases hm : uid ∈ db.bet.starredBy
    · have hlen : 1 ≤ db.bet.starredBy.length := List.length_pos.mpr
        (List.ne_nil_of_mem hm)
      have hfirst : toggle_star db uid =
          { bet :=
              { db.bet with
                starredBy := db.bet.starredBy.erase uid,
                stars := max (db.bet.stars - 1) 0 },
            points := db.points } := by
        unfold toggle_star
        rw [if_pos hm]
      have hnm : uid ∉ db.bet.starredBy.erase uid := hnd.not_mem_erase
      have hsecond : toggle_star (toggle_star db uid) uid =
          { bet :=
              { db.bet with
                starredBy := db.bet.starredBy.erase uid ++ [uid],
                stars := max (db.bet.stars - 1) 0 + 1 },
            points := db.points } := by
        rw [hfirst]
        unfold toggle_star
        rw [if_neg (by simpa using hnm)]
      rw [hsecond]
      refine ⟨?_, ?_, rfl, rfl, rfl, rfl⟩
      · show max (db.bet.stars - 1) 0 + 1 = db.bet.stars
        omega
      · show List.Perm (db.bet.starredBy.erase uid ++ [uid]) db.bet.starredBy
        exact (List.perm_append_singleton _ _).trans (List.perm_cons_erase hm).symm
    · have hfirst : toggle_star db uid =
          { bet :=
              { db.bet with
                starredBy := db.bet.starredBy ++ [uid],
                stars := db.bet.stars + 1 },
            points := db.points } := by
        unfold toggle_star
        rw [if_neg hm]
      have hsecond : toggle_star (toggle_star db uid) uid =
          { bet :=
              { db.bet with
                starredBy := (db.bet.starredBy ++ [uid]).erase uid,
                stars := max (db.bet.stars + 1 - 1) 0 },
            points := db.points } := by
        rw [hfirst]
        unfold toggle_star
        rw [if_pos (by simp)]
      have herase : (db.bet.starredBy ++ [uid]).erase uid = db.bet.starredBy := by
        rw [List.erase_append_right _ hm]
        simp
      rw [hsecond, herase]
      refine ⟨?_, List.Perm.refl _, rfl, rfl, rfl, rfl⟩
      · show max (db.bet.stars + 1 - 1) 0 = db.bet.stars
        omega
  · intro ops
    exact foldl_toggle_star_nonneg ops db (by omega)

theorem hasDup_iff (b : Bet) (uid : Nat) :
    (b.challenges.any fun c => decide (c.challengerId = uid ∧
      (c.status = .pending ∨ c.status = .accepted))) = true ↔
    ∃ c ∈ b.challenges, c.challengerId = uid ∧
      (c.status = .pending ∨ c.status = .accepted) := by
  simp [List.any_eq_true]

/-- C6: create_challenge succeeds exactly when the bet is ACTIVE, the caller
is not the creator, the caller has no PENDING/ACCEPTED challenge on the bet,
and the amount is positive and covered by the caller's balance; a
non-positive amount is rejected with InvalidAmount (once the earlier state
checks pass) before any mutation, any failure leaves the state unchanged,
and success debits exactly the amount and appends one PENDING challenge. -/
theorem C6_create_challenge (db : DB) (uid : Nat) (a : Int) :
    (isOkB (create_challenge db uid a) = true ↔
      db.bet.status = .active ∧ db.bet.creator ≠ uid ∧
      ¬ (∃ c ∈ db.bet.challenges, c.challengerId = uid ∧
        (c.status = .pending ∨ c.status = .accepted)) ∧
      0 < a ∧ a ≤ db.points uid) ∧
    (db.bet.status = .active → db.bet.creator ≠ uid →
      ¬ (∃ c ∈ db.bet.challenges, c.challengerId = uid ∧
        (c.status = .pending ∨ c.status = .accepted)) →
      a ≤ 0 → create_challenge db uid a = .error .invalidAmount) ∧
    (∀ e, create_challenge db uid a = .error e →
      applyOp db (.challengeOp uid a) = db) ∧
    (∀ db2, create_challenge db uid a = .ok db2 →
      db2.points uid = db.points uid - a ∧
      (∀ u, u ≠ uid → db2.points u = db.points u) ∧
      db2.bet.challenges = db.bet.challenges ++
        [{ challengerId := uid, amount := a, status := .pending }] ∧
      db2.bet.status = db.bet.status ∧ db2.bet.amount = db.bet.amount) := by
  refine ⟨⟨?_, ?_⟩, ?_, ?_, ?_⟩
  · intro hok
    cases hres : create_challenge db uid a with
    | error e => rw [hres] at hok; exact absurd hok (by simp [isOkB])
    | ok db2 =>
      obtain ⟨h1, h2, h3, h4, h5, _, _⟩ := create_challenge_ok hres
      refine ⟨h1, h2, ?_, h4, h5⟩
      rw [← hasDup_iff, h3]
      exact Bool.false_ne_true
  · rintro ⟨h1, h2, h3, h4, h5⟩
    have hdup : (db.bet.challenges.any fun c => decide (c.challengerId = uid ∧
        (c.status = .pending ∨ c.status = .accepted))) = false := by
      cases hd : (db.bet.challenges.any fun c => decide (c.challengerId = uid ∧
          (c.status = .pending ∨ c.status = .accepted)))
      · rfl
      · exact absurd ((hasDup_iff _ _).mp hd) h3
    rw [create_challenge_eq_ok h1 h2 hdup h4 h5]
    rfl
  · intro h1 h2 h3 ha
    have hdup : (db.bet.challenges.any fun c => decide (c.challengerId = uid ∧
        (c.status = .pending ∨ c.status = .accepted))) = false := by
      cases hd : (db.bet.challenges.any fun c => decide (c.challengerId = uid ∧
          (c.status = .pending ∨ c.status = .accepted)))
      · rfl
      · exact absurd ((hasDup_iff _ _).mp hd) h3
    unfold create_challenge
    rw [if_neg (by simp [h1]), if_neg h2,
      if_neg (by rw [hdup]; exact Bool.false_ne_true)]
    unfold validate_points
    rw [if_pos ha]
  · intro e he
    simp [applyOp, orSame, he]
  · intro db2 hres
    obtain ⟨h1, h2, h3, h4, h5, hbet, hpts⟩ := create_challenge_ok hres
    refine ⟨?_, ?_, ?_, ?_, ?_⟩
    · rw [hpts, addPoints_self]
      ring
    · intro u hu
      rw [hpts, addPoints_other _ _ _ _ hu]
    · rw [hbet]
    · rw [hbet]
    · rw [hbet]

/-- C9: accept_challenge never consults the bet's status — it succeeds on a
bet in any state, including WON/LOST/CANCELLED, whenever the caller is the
creator and the addressed challenge is PENDING and affordable, debiting the
creator, growing bet.amount and marking the challenge ACCEPTED; and once a
bet is terminal no resolution, vote, sweep, new challenge or proof upload
changes the state again, so those points can never be paid out. -/
theorem C9_accept_ignores_status (db : DB) (uid : Nat) (i : Nat)
    (hpos : ∀ c ∈ db.bet.challenges, 0 < c.amount) :
    (isOkB (accept_challenge db uid i) = true ↔
      db.bet.creator = uid ∧ ∃ c, db.bet.challenges[i]? = some c ∧
        c.status = .pending ∧ c.amount ≤ db.points uid) ∧
    (∀ c db2, db.bet.challenges[i]? = some c →
      accept_challenge db uid i = .ok db2 →
      db2.points uid = db.points uid - c.amount ∧
      db2.bet.amount = db.bet.amount + c.amount ∧
      db2.bet.challenges = db.bet.challenges.set i { c with status := .accepted } ∧
      db2.bet.status = db.bet.status) ∧
    (db.bet.status = .won ∨ db.bet.status = .lost ∨ db.bet.status = .cancelled →
      (∀ u2 st, applyOp db (.resolveOp u2 st) = db) ∧
      (∀ u2 v, applyOp db (.voteOp u2 v) = db) ∧
      (∀ now, applyOp db (.sweepOp now) = db) ∧
      (∀ u2 a, applyOp db (.challengeOp u2 a) = db) ∧
      (∀ u2 now, applyOp db (.proofOp u2 now) = db)) := by
  refine ⟨⟨?_, ?_⟩, ?_, ?_⟩
  · intro hok
    cases hres : accept_challenge db uid i with
    | error e => rw [hres] at hok; exact absurd hok (by simp [isOkB])
    | ok db2 =>
      obtain ⟨c, h1, h2, h3, _, h5, _, _⟩ := accept_challenge_ok hres
      exact ⟨h1, c, h2, h3, h5⟩
  · rintro ⟨h1, c, h2, h3, h5⟩
    rw [accept_challenge_eq_ok h1 h2 h3 (hpos c (List.getElem?_mem h2)) h5]
    rfl
  · intro c db2 hget hres
    obtain ⟨c2, h1, h2, h3, _, h5, hbet, hpts⟩ := accept_challenge_ok hres
    have hcc : c2 = c := by
      rw [hget] at h2
      exact (Option.some.inj h2).symm
    subst hcc
    refine ⟨?_, ?_, ?_, ?_⟩
    · rw [hpts, addPoints_self]
      ring
    · rw [hbet]
    · rw [hbet]
    · rw [hbet]
  · intro hterm
    refine ⟨?_, ?_, ?_, ?_, ?_⟩
    · intro u2 st
      cases hres : resolve_bet db u2 st with
      | error e => simp [applyOp, orSame, hres]
      | ok db2 =>
        obtain ⟨_, hst, _⟩ := resolve_bet_ok hres
        rcases hterm with h | h | h <;> rw [h] at hst <;> exact absurd hst (by simp)
    · intro u2 v
      cases hres : vote_on_proof db u2 v with
      | error e => simp [applyOp, orSame, hres]
      | ok db2 =>
        obtain ⟨hst, _⟩ := vote_on_proof_ok hres
        rcases hterm with h | h | h <;> rw [h] at hst <;> exact absurd hst (by simp)
    · intro now
      simp only [applyOp]
      rw [check_deadline_bet_skip (by rcases hterm with h | h | h <;> simp [h])]
    · intro u2 a
      cases hres : create_challenge db u2 a with
      | error e => simp [applyOp, orSame, hres]
      | ok db2 =>
        obtain ⟨hst, _⟩ := create_challenge_ok hres
        rcases hterm with h | h | h <;> rw [h] at hst <;> exact absurd hst (by simp)
    · intro u2 now
      cases hres : upload_proof db u2 now with
      | error e => simp [applyOp, orSame, hres]
      | ok db2 =>
        obtain ⟨_, _, hst, _⟩ := upload_proof_ok hres
        rcases hterm with h | h | h <;> rw [h] at hst <;> exact absurd hst (by simp)

theorem hasVoted_iff (b : Bet) (uid : Nat) :
    (b.votes.any fun pv => decide (pv.userId = uid)) = true ↔
    ∃ pv ∈ b.votes, pv.userId = uid := by
  simp [List.any_eq_true]

/-- C4: while a bet is PROOF_UNDER_REVIEW, casting a vote succeeds exactly
for an eligible (PENDING or ACCEPTED) challenger who has not already voted;
the vote moves the bet to WON exactly when the resulting COOL count strictly
exceeds half the number of eligible voters, and in that case the creator is
credited bet.amount plus the sum of all eligible challengers' stakes. -/
theorem C4_vote_majority (db : DB) (uid : Nat) (v : VoteValue)
    (h : db.bet.status = .proofUnderReview) :
    (isOkB (vote_on_proof db uid v) = true ↔
      uid ∈ eligibleVoterIds db.bet ∧ ¬ ∃ pv ∈ db.bet.votes, pv.userId = uid) ∧
    (∀ db2, vote_on_proof db uid v = .ok db2 →
      (db2.bet.status = .won ↔
        2 * coolCount (db.bet.votes ++ [{ userId := uid, vote := v }]) >
          (eligibleVoterIds db.bet).length) ∧
      (db2.bet.status = .won →
        db2.points db.bet.creator = db.points db.bet.creator +
          db.bet.amount + sumAmounts (activeChallenges db.bet))) := by
  constructor
  · constructor
    · intro hok
      cases hres : vote_on_proof db uid v with
      | error e => rw [hres] at hok; exact absurd hok (by simp [isOkB])
      | ok db2 =>
        obtain ⟨_, helig, hnov, _⟩ := vote_on_proof_ok hres
        refine ⟨helig, ?_⟩
        rw [← hasVoted_iff, hnov]
        exact Bool.false_ne_true
    · rintro ⟨helig, hnov⟩
      have hnv : (db.bet.votes.any fun pv => decide (pv.userId = uid)) = false := by
        cases hd : (db.bet.votes.any fun pv => decide (pv.userId = uid))
        · rfl
        · exact absurd ((hasVoted_iff _ _).mp hd) hnov
      exact vote_on_proof_isOk h helig hnv
  · intro db2 hres
    obtain ⟨hst, helig, hnov, hvotes, hcase⟩ := vote_on_proof_ok hres
    rcases hcase with ⟨hmaj, hbet, hpts⟩ | ⟨hmaj, hall, hbet, hpts⟩ |
      ⟨hmaj, hall, hbet, hpts⟩
    · refine ⟨⟨fun _ => hmaj, fun _ => by rw [hbet]⟩, fun _ => ?_⟩
      rw [hpts, addPoints_self]
      ring
    · refine ⟨⟨fun habs => ?_, fun hc => absurd hc hmaj⟩, fun habs => ?_⟩
      · rw [hbet] at habs
        simp at habs
      · rw [hbet] at habs
        simp at habs
    · refine ⟨⟨fun habs => ?_, fun hc => absurd hc hmaj⟩, fun habs => ?_⟩
      · rw [hbet] at habs
        simp [h] at habs
      · rw [hbet] at habs
        simp [h] at habs

/-- The spec's tribunal scenario just before the deciding vote: creator 0
staked 7 (balance 3), challengers 1 and 2 staked 4 and 5 (balances 6 and 5,
both challenges still PENDING), proof is under review, challenger 1 already
voted COOL. -/
def dbMid : DB :=
  { bet :=
      { creator := 0, creatorStake := 7, amount := 7,
        status := .proofUnderReview, deadline := 5,
        challenges := [{ challengerId := 1, amount := 4, status := .pending },
                       { challengerId := 2, amount := 5, status := .pending }],
        votes := [{ userId := 1, vote := .cool }], stars := 0, starredBy := [] },
    points := fun u => if u = 0 then 3 else if u = 1 then 6 else
      if u = 2 then 5 else 10 }

/-- C4 witness: in the concrete tribunal scenario the deciding COOL vote
resolves the bet WON and the creator's balance becomes 3 + 7 + 9 = 19. -/
theorem C4_witness :
    dbMid.bet.status = .proofUnderReview ∧
    okMap (fun d => (d.bet.status, d.points 0)) (vote_on_proof dbMid 2 .cool) =
      some (.won, 19) := by
  refine ⟨rfl, ?_⟩
  have h := C4_vote_majority dbMid 2 .cool rfl
  cases hres : vote_on_proof dbMid 2 .cool with
  | error e =>
    have hok := h.1.mpr (by decide)
    rw [hres] at hok
    exact absurd hok (by simp [isOkB])
  | ok db2 =>
    obtain ⟨hiff, hcred⟩ := h.2 db2 hres
    have hwon : db2.bet.status = .won := hiff.mpr (by decide)
    have hpts := hcred hwon
    have hval : dbMid.points dbMid.bet.creator + dbMid.bet.amount +
        sumAmounts (activeChallenges dbMid.bet) = 19 := by decide
    have hpts0 : db2.points 0 = 19 := hpts.trans hval
    rw [okMap, hwon, hpts0]

theorem sum_map_smul (cs : List Challenge) :
    (cs.map fun c => 2 * c.amount).sum = 2 * sumAmounts cs := by
  induction cs with
  | nil => simp
  | cons c cs ih =>
    simp only [List.map_cons, List.sum_cons, sumAmounts_cons, ih]
    ring

/-- C3 (amended): a deadline sweep on an ACTIVE bet past its deadline marks
it LOST and credits exactly the PENDING challengers, each with
stake + ⌊stake·bet.amount / total_pending_stake⌋ (nobody when the pending
total is zero) — the proportional formula of creator-initiated resolution —
whereas the vote-triggered LOST settlement credits every PENDING or ACCEPTED
challenger exactly twice their stake; the two settlements differ in general. -/
theorem C3_amended (b : Bet) (p : Points) (now : Int)
    (h1 : b.status = .active) (h2 : b.deadline ≤ now) :
    ((check_deadline_bet now b p).1.status = .lost ∧
     (check_deadline_bet now b p).1.challenges = b.challenges ∧
     ∀ u, (check_deadline_bet now b p).2 u = p u +
       (if 0 < sumAmounts (pendingChallenges b) then
          (((pendingChallenges b).filter fun c => decide (c.challengerId = u)).map
            fun c => c.amount +
              Int.fdiv (c.amount * b.amount) (sumAmounts (pendingChallenges b))).sum
        else 0)) ∧
    (∀ dbv : DB, ∀ uid v db2, vote_on_proof dbv uid v = .ok db2 →
      db2.bet.status = .lost → ∀ u, db2.points u = dbv.points u +
        2 * sumAmounts ((activeChallenges dbv.bet).filter
          fun c => decide (c.challengerId = u))) := by
  constructor
  · have hexp := check_deadline_bet_expired (p := p) h1 h2
    by_cases hts : sumAmounts (pendingChallenges b) > 0
    · rw [if_pos hts] at hexp
      rw [hexp]
      refine ⟨rfl, rfl, ?_⟩
      intro u
      show creditEach p (pendingChallenges b) _ u = _
      rw [creditEach_apply, if_pos hts]
    · rw [if_neg hts] at hexp
      rw [hexp]
      refine ⟨rfl, rfl, ?_⟩
      intro u
      show p u = p u + _
      rw [if_neg hts]
      ring
  · intro dbv uid v db2 hres hlost u
    obtain ⟨hst, _, _, _, hcase⟩ := vote_on_proof_ok hres
    rcases hcase with ⟨_, hbet, _⟩ | ⟨_, _, hbet, hpts⟩ | ⟨_, _, hbet, _⟩
    · rw [hbet] at hlost
      simp at hlost
    · rw [hpts, creditEach_apply]
      rw [sum_map_smul]
    · rw [hbet] at hlost
      simp [hst] at hlost

/-- A bet state exercising the difference between the two LOST settlements:
creator 0 staked 7, one PENDING challenger (user 1) staked 4. -/
def b3 : Bet :=
  { creator := 0, creatorStake := 7, amount := 7, status := .active, deadline := 0,
    challenges := [{ challengerId := 1, amount := 4, status := .pending }],
    votes := [], stars := 0, starredBy := [] }

/-- A zeroed balance table, to read settlement credits off directly. -/
def zeroPts : Points := fun _ => 0

/-- C3 counterexample: on the same challenge set (one pending challenger,
stake 4, creator pot 7) the deadline sweep credits 4 + ⌊4·7/4⌋ = 11 while
the vote-triggered LOST settlement credits 2·4 = 8, so the sweeper does not
apply the same settlement as the vote path. -/
theorem C3_counterexample :
    (check_deadline_bet 0 b3 zeroPts).2 1 = 11 ∧
    okMap (fun d => d.points 1)
      (vote_on_proof
        { bet := { b3 with status := .proofUnderReview },
          points := zeroPts } 1 .notCool) = some 8 ∧
    ¬ ((11 : Int) = 8) := by
  exact ⟨by decide, by decide, by decide⟩

/-- C3 witness: the sweep of the concrete expired bet resolves it LOST and
pays the pending challenger 11 points. -/
theorem C3_witness :
    (check_deadline_bet 0 b3 zeroPts).1.status = .lost ∧
    (check_deadline_bet 0 b3 zeroPts).2 1 = 11 := by
  have h := C3_amended b3 zeroPts 0 rfl (by decide)
  refine ⟨h.1.1, ?_⟩
  have hu := h.1.2.2 1
  rw [hu]
  decide

/-- The spec's tribunal LOST scenario as a full trace: creator 0 stakes 7,
challengers 1 and 2 stake 4 and 5 (left PENDING), proof is uploaded, both
vote NOT_COOL. -/
def voteLostOps : List Op :=
  [.challengeOp 1 4, .challengeOp 2 5, .proofOp 0 0,
   .voteOp 1 .notCool, .voteOp 2 .notCool]

/-- C2: evaluating the code on the spec's LOST scenario — the bet resolves
LOST but each challenger is credited twice their stake, leaving balances 14
and 15, not the 13 and 13 the proportional formula (and the repository's own
test) requires. -/
theorem C2_vote_lost_pays_double :
    (runScen (create_bet p10 0 7 5) voteLostOps).map
      (fun db => (db.bet.status, db.points 1, db.points 2)) =
      some (.lost, 14, 15) ∧
    ¬ ((14 : Int) = 13) ∧ ¬ ((15 : Int) = 13) := by
  exact ⟨by decide, by decide, by decide⟩

theorem sumAmounts_pos {cs : List Challenge} (hne : cs ≠ [])
    (hpos : ∀ c ∈ cs, 0 < c.amount) : 0 < sumAmounts cs := by
  rcases cs with _ | ⟨c, cs⟩
  · exact absurd rfl hne
  · have h1 := hpos c (List.mem_cons_self _ _)
    have h2 := sumAmounts_nonneg cs
      fun d hd => le_of_lt (hpos d (List.mem_cons_of_mem _ hd))
    simp only [sumAmounts_cons]
    omega

theorem active_eq_accepted (b : Bet)
    (h : ∀ c ∈ b.challenges, c.status = .accepted ∨ c.status = .rejected) :
    activeChallenges b = acceptedChallenges b := by
  unfold activeChallenges acceptedChallenges
  apply List.filter_congr
  intro c hc
  rcases h c hc with h2 | h2 <;> simp [h2]

theorem nonRejected_eq_accepted (b : Bet)
    (h : ∀ c ∈ b.challenges, c.status = .accepted ∨ c.status = .rejected) :
    (b.challenges.filter fun c => decide (c.status ≠ .rejected)) =
      acceptedChallenges b := by
  unfold acceptedChallenges
  apply List.filter_congr
  intro c hc
  rcases h c hc with h2 | h2 <;> simp [h2]

theorem sumAccepted_eq (b : Bet) :
    sumAccepted b.challenges = sumAmounts (acceptedChallenges b) := rfl

theorem map_amount_sum (cs : List Challenge) :
    (cs.map fun c => c.amount).sum = sumAmounts cs := rfl

/-- The escrow of an undecided bet: the matched pot plus the stakes of the
PENDING/ACCEPTED challenges — exactly the debits taken so far net of the
rejection refunds (by the ledger invariant). -/
def escrow (b : Bet) : Int := b.amount + sumAmounts (activeChallenges b)

/-- Total balance over a set of users after a successful endpoint call. -/
def sumAfter (r : Except Err DB) (S : Finset Nat) : Int :=
  match r with
  | .ok d => ∑ u ∈ S, d.points u
  | .error _ => 0

/-- C1 (amended): over any user set covering the creator and all
challengers, a creator-initiated resolution of an ACTIVE bet whose
challenges are all ACCEPTED or REJECTED, with at least one ACCEPTED, settles
conservatively: WON and CANCELLED redistribute exactly the escrow
(bet.amount plus accepted stakes, i.e. all debits net of rejection refunds),
and LOST redistributes it up to a flooring dust of at most
(number of challengers − 1) points; the vote-triggered WON path also
conserves the escrow exactly.  (The vote-triggered LOST path, which pays
each eligible challenger twice their stake, is excluded: it violates
conservation — see the counterexample.) -/
theorem C1_amended (db : DB) (S : Finset Nat)
    (hS : db.bet.creator ∈ S)
    (hch : ∀ c ∈ db.bet.challenges, c.challengerId ∈ S)
    (hpos : ∀ c ∈ db.bet.challenges, 0 < c.amount) :
    (∀ st, db.bet.status = .active →
      (∀ c ∈ db.bet.challenges, c.status = .accepted ∨ c.status = .rejected) →
      (∃ c ∈ db.bet.challenges, c.status = .accepted) →
      st = .won ∨ st = .lost ∨ st = .cancelled →
      sumAfter (resolve_bet db db.bet.creator st) S ≤
          (∑ u ∈ S, db.points u) + escrow db.bet ∧
      (∑ u ∈ S, db.points u) + escrow db.bet -
          ((db.bet.challenges.length : Int) - 1) ≤
        sumAfter (resolve_bet db db.bet.creator st) S ∧
      (st = .won ∨ st = .cancelled →
        sumAfter (resolve_bet db db.bet.creator st) S =
          (∑ u ∈ S, db.points u) + escrow db.bet)) ∧
    (∀ uid v db2, vote_on_proof db uid v = .ok db2 → db2.bet.status = .won →
      (∑ u ∈ S, db2.points u) = (∑ u ∈ S, db.points u) + escrow db.bet) := by
  constructor
  · intro st hact hnp hex hst3
    have hAe : activeChallenges db.bet = acceptedChallenges db.bet :=
      active_eq_accepted _ hnp
    have hesc : escrow db.bet =
        db.bet.amount + sumAmounts (acceptedChallenges db.bet) := by
      unfold escrow
      rw [hAe]
    have hacc_ne : acceptedChallenges db.bet ≠ [] := by
      obtain ⟨c, hc, hcs⟩ := hex
      exact List.ne_nil_of_mem (List.mem_filter.mpr ⟨hc, by simp [hcs]⟩)
    have haccpos : ∀ c ∈ acceptedChallenges db.bet, 0 < c.amount :=
      fun c hc => hpos c (List.mem_of_mem_filter hc)
    have hT : 0 < sumAmounts (acceptedChallenges db.bet) :=
      sumAmounts_pos hacc_ne haccpos
    have hk : 1 ≤ db.bet.challenges.length := by
      obtain ⟨c, hc, _⟩ := hex
      exact List.length_pos.mpr (List.ne_nil_of_mem hc)
    have hkI : (1 : Int) ≤ (db.bet.challenges.length : Int) := by exact_mod_cast hk
    rcases hst3 with rfl | rfl | rfl
    · have heq : sumAfter (resolve_bet db db.bet.creator .won) S =
          (∑ u ∈ S, db.points u) + escrow db.bet := by
        rw [resolve_bet_eq_won rfl hact]
        simp only [sumAfter]
        rw [sum_addPoints S db.points db.bet.creator _ hS, hesc, sumAccepted_eq]
      exact ⟨heq.le, by omega, fun _ => heq⟩
    · rw [resolve_bet_eq_lost rfl hact (by rw [sumAccepted_eq]; exact hT)]
      simp only [sumAfter]
      rw [sum_creditEach S (acceptedChallenges db.bet) db.points _
        (fun c hc => hch c (List.mem_of_mem_filter hc))]
      simp only [sumAccepted_eq]
      have hb := payout_total_bounds (acceptedChallenges db.bet) db.bet.amount hT
      have hlen : ((acceptedChallenges db.bet).length : Int) ≤
          (db.bet.challenges.length : Int) := by
        exact_mod_cast List.length_filter_le _ _
      rw [hesc]
      refine ⟨by omega, by omega, ?_⟩
      rintro (h | h) <;> simp at h
    · have heq : sumAfter (resolve_bet db db.bet.creator .cancelled) S =
          (∑ u ∈ S, db.points u) + escrow db.bet := by
        rw [resolve_bet_eq_cancelled rfl hact]
        simp only [sumAfter]
        rw [sum_creditEach S _ _ _
          (fun c hc => hch c (List.mem_of_mem_filter hc)),
          sum_addPoints S db.points db.bet.creator _ hS,
          nonRejected_eq_accepted _ hnp, map_amount_sum, hesc]
        ring
      exact ⟨heq.le, by omega, fun _ => heq⟩
  · intro uid v db2 hres hwon
    obtain ⟨hst, _, _, _, hcase⟩ := vote_on_proof_ok hres
    rcases hcase with ⟨_, hbet, hpts⟩ | ⟨_, _, hbet, _⟩ | ⟨_, _, hbet, _⟩
    · rw [hpts, sum_addPoints S db.points db.bet.creator _ hS]
      unfold escrow
      ring
    · rw [hbet] at hwon
      simp at hwon
    · rw [hbet] at hwon
      simp [hst] at hwon

/-- An ACTIVE bet with two accepted challenges (stakes 4 and 5, creator
stake 7 so the matched pot is 16), exercising the LOST dust bound. -/
def dbW : DB :=
  { bet :=
      { creator := 0, creatorStake := 7, amount := 16, status := .active,
        deadline := 5,
        challenges := [{ challengerId := 1, amount := 4, status := .accepted },
                       { challengerId := 2, amount := 5, status := .accepted }],
        votes := [], stars := 0, starredBy := [] },
    points := fun u => if u = 0 then 0 else if u = 1 then 6 else
      if u = 2 then 5 else 10 }

/-- C1 witness: resolving the concrete matched bet LOST keeps the total
balance within the escrow bounds (here 11 + 25 dust-bounded by 1). -/
theorem C1_witness :
    sumAfter (resolve_bet dbW dbW.bet.creator .lost) {0, 1, 2} ≤
      (∑ u ∈ ({0, 1, 2} : Finset Nat), dbW.points u) + escrow dbW.bet ∧
    (∑ u ∈ ({0, 1, 2} : Finset Nat), dbW.points u) + escrow dbW.bet -
        ((dbW.bet.challenges.length : Int) - 1) ≤
      sumAfter (resolve_bet dbW dbW.bet.creator .lost) {0, 1, 2} ∧
    sumAfter (resolve_bet dbW dbW.bet.creator .lost) {0, 1, 2} = 35 := by
  have h := (C1_amended dbW {0, 1, 2} (by decide) (by decide) (by decide)).1
    .lost rfl (by decide) (by decide) (by simp)
  exact ⟨h.1, h.2.1, by decide⟩

/-- C1 counterexample: on the spec's own tribunal LOST scenario the code
credits 18 points against 16 points of debits (the three balances sum to 32
after starting at 30), exceeding any flooring dust — with two challengers
the claim allows the total to drop by at most 1, never to grow. -/
theorem C1_counterexample :
    (runScen (create_bet p10 0 7 5) voteLostOps).map
      (fun db => db.points 0 + db.points 1 + db.points 2) = some 32 ∧
    p10 0 + p10 1 + p10 2 = 30 ∧
    ¬ ((32 : Int) ≤ 30) := by
  exact ⟨by decide, by decide, by decide⟩

/-- C5 (amended): in every state reachable from bet creation in which the
bet has not been CANCELLED, bet.amount equals the creator's original stake
plus the sum of the ACCEPTED challenge amounts.  (Cancellation re-marks the
accepted challenges CANCELLED without shrinking bet.amount, so the equation
can fail afterwards — see the counterexample.) -/
theorem C5_amount_invariant (p0 : Points) (creator : Nat) (stake dl : Int)
    (db0 : DB) (ops : List Op)
    (h0 : create_bet p0 creator stake dl = .ok db0)
    (h : (run db0 ops).bet.status ≠ .cancelled) :
    (run db0 ops).bet.amount =
      stake + sumAccepted (run db0 ops).bet.challenges :=
  (inv_run (inv_create_bet h0) ops).amount_eq h

/-- The state right after creator 0 creates a bet staking 1 (deadline 5),
starting from the default balances. -/
def db0Small : DB :=
  { bet :=
      { creator := 0, creatorStake := 1, amount := 1, status := .active,
        deadline := 5, challenges := [], votes := [], stars := 0, starredBy := [] },
    points := addPoints p10 0 (-1) }

/-- C5 witness: after a challenge of 1 is created and accepted, the
reachable state still satisfies amount = stake + accepted total (1 + 1). -/
theorem C5_witness :
    (run db0Small [Op.challengeOp 1 1, Op.acceptOp 0 0]).bet.amount =
      1 + sumAccepted (run db0Small [Op.challengeOp 1 1, Op.acceptOp 0 0]).bet.challenges := by
  exact C5_amount_invariant p10 0 1 5 db0Small
    [Op.challengeOp 1 1, Op.acceptOp 0 0] rfl (by decide)

/-- C5 counterexample: create (stake 1), challenge 1, accept, cancel — the
cancelled state has bet.amount = 2 but creator stake + accepted total = 1,
because cancellation re-marked the accepted challenge CANCELLED. -/
theorem C5_counterexample :
    (runScen (create_bet p10 0 1 5)
        [Op.challengeOp 1 1, Op.acceptOp 0 0, Op.resolveOp 0 .cancelled]).map
      (fun db => (db.bet.amount,
        db.bet.creatorStake + sumAccepted db.bet.challenges)) = some (2, 1) ∧
    ¬ ((2 : Int) = 1) := by
  exact ⟨by decide, by decide⟩

/-- C7: cancelling an ACTIVE reachable bet credits the creator bet.amount
and every non-REJECTED challenge its full stake, marking it CANCELLED; and
when no challenge was ever accepted, every user's balance returns to its
value from before the bet was created. -/
theorem C7_cancel_refunds (p0 : Points) (creator : Nat) (stake dl : Int)
    (db0 : DB) (ops : List Op)
    (h0 : create_bet p0 creator stake dl = .ok db0)
    (hact : (run db0 ops).bet.status = .active) :
    (∀ u, okMap (fun d => d.points u)
        (resolve_bet (run db0 ops) creator .cancelled) =
      some ((run db0 ops).points u +
        (if u = creator then (run db0 ops).bet.amount else 0) +
        sumAmounts ((((run db0 ops).bet.challenges.filter fun c =>
            decide (c.status ≠ .rejected)).filter fun c =>
          decide (c.challengerId = u))))) ∧
    (okMap (fun d => d.bet.challenges)
        (resolve_bet (run db0 ops) creator .cancelled) =
      some ((run db0 ops).bet.challenges.map fun c =>
        if c.status ≠ .rejected then { c with status := .cancelled } else c)) ∧
    ((∀ c ∈ (run db0 ops).bet.challenges, c.status ≠ .accepted) →
      ∀ u, okMap (fun d => d.points u)
          (resolve_bet (run db0 ops) creator .cancelled) = some (p0 u)) := by
  have hI := inv_run (inv_create_bet h0) ops
  have hcr : (run db0 ops).bet.creator = creator := hI.creator_eq
  have hgen : ∀ u, okMap (fun d => d.points u)
      (resolve_bet (run db0 ops) creator .cancelled) =
      some ((run db0 ops).points u +
        (if u = creator then (run db0 ops).bet.amount else 0) +
        sumAmounts ((((run db0 ops).bet.challenges.filter fun c =>
            decide (c.status ≠ .rejected)).filter fun c =>
          decide (c.challengerId = u)))) := by
    intro u
    rw [resolve_bet_eq_cancelled hcr hact]
    simp only [okMap]
    congr 1
    rw [creditEach_apply, map_amount_sum, addPoints_apply, hcr]
    by_cases hu : u = creator
    · rw [if_pos hu, if_pos hu]
    · rw [if_neg hu, if_neg hu]
      omega
  refine ⟨hgen, ?_, ?_⟩
  · rw [resolve_bet_eq_cancelled hcr hact]
    simp only [okMap]
  · intro hnoacc u
    rw [hgen u]
    have hstat : ∀ c ∈ (run db0 ops).bet.challenges,
        c.status = .pending ∨ c.status = .rejected := by
      intro c hc
      have h1 := hnoacc c hc
      have h2 := hI.noCancelled (Or.inl hact) c hc
      cases hstc : c.status <;> simp_all
    have hNested : (((run db0 ops).bet.challenges.filter fun c =>
          decide (c.status ≠ .rejected)).filter fun c =>
        decide (c.challengerId = u)) =
        (run db0 ops).bet.challenges.filter fun c =>
          decide ((c.status = .pending ∨ c.status = .accepted) ∧
            c.challengerId = u) := by
      rw [List.filter_filter]
      apply List.filter_congr
      intro c hc
      rcases hstat c hc with h | h <;> simp [h]
    have hled := hI.ledger (Or.inl hact) u
    have hheld : heldBy (run db0 ops).bet u =
        (if u = creator then (run db0 ops).bet.amount else 0) +
        sumAmounts ((run db0 ops).bet.challenges.filter fun c =>
          decide ((c.status = .pending ∨ c.status = .accepted) ∧
            c.challengerId = u)) := by
      unfold heldBy
      rw [hcr]
    rw [hNested]
    congr 1
    omega

/-- The state right after creator 0 creates a bet staking 5 (deadline 5),
starting from the default balances. -/
def db0Cancel : DB :=
  { bet :=
      { creator := 0, creatorStake := 5, amount := 5, status := .active,
        deadline := 5, challenges := [], votes := [], stars := 0, starredBy := [] },
    points := addPoints p10 0 (-5) }

/-- C7 witness: creator 0 staked 5, challenger 1 staked 3 (pending); after
cancellation both balances are back to their initial 10 points. -/
theorem C7_witness :
    okMap (fun d => d.points 0)
      (resolve_bet (run db0Cancel [Op.challengeOp 1 3]) 0 .cancelled) =
      some (p10 0) ∧
    okMap (fun d => d.points 1)
      (resolve_bet (run db0Cancel [Op.challengeOp 1 3]) 0 .cancelled) =
      some (p10 1) := by
  have h := C7_cancel_refunds p10 0 5 5 db0Cancel [Op.challengeOp 1 3] rfl
    (by decide)
  exact ⟨h.2.2 (by decide) 0, h.2.2 (by decide) 1⟩

/-- C6 witness: on the concrete fresh bet, user 1's challenge of 3 succeeds
and debits exactly 3 points (10 → 7). -/
theorem C6_witness :
    isOkB (create_challenge db0Cancel 1 3) = true ∧
    okMap (fun d => d.points 1) (create_challenge db0Cancel 1 3) = some 7 := by
  have h := C6_create_challenge db0Cancel 1 3
  have hok : isOkB (create_challenge db0Cancel 1 3) = true := h.1.mpr (by decide)
  refine ⟨hok, ?_⟩
  cases hres : create_challenge db0Cancel 1 3 with
  | error e =>
    rw [hres] at hok
    exact absurd hok (by simp [isOkB])
  | ok db2 =>
    obtain ⟨hp, _⟩ := h.2.2.2 db2 hres
    simp only [okMap]
    rw [hp]
    decide

/-- A bet already resolved WON whose challenge list still holds a PENDING
challenge of 2 by user 1. -/
def dbTerm : DB :=
  { bet :=
      { creator := 0, creatorStake := 2, amount := 2, status := .won,
        deadline := 5,
        challenges := [{ challengerId := 1, amount := 2, status := .pending }],
        votes := [], stars := 0, starredBy := [] },
    points := p10 }

/-- C9 witness: the creator can still accept the pending challenge on the
already-WON bet, growing bet.amount to 4 while the status stays WON. -/
theorem C9_witness :
    isOkB (accept_challenge dbTerm 0 0) = true ∧
    okMap (fun d => (d.bet.amount, d.bet.status)) (accept_challenge dbTerm 0 0) =
      some (4, .won) := by
  have h := C9_accept_ignores_status dbTerm 0 0 (by decide)
  have hok : isOkB (accept_challenge dbTerm 0 0) = true := h.1.mpr (by decide)
  refine ⟨hok, ?_⟩
  cases hres : accept_challenge dbTerm 0 0 with
  | error e =>
    rw [hres] at hok
    exact absurd hok (by simp [isOkB])
  | ok db2 =>
    obtain ⟨_, hamt, _, hstat⟩ :=
      h.2.1 { challengerId := 1, amount := 2, status := .pending } db2 rfl hres
    simp only [okMap]
    rw [hamt, hstat]
    decide

/-- A fresh bet with no stars, for the star-toggle witness. -/
def dbStar : DB :=
  { bet :=
      { creator := 0, creatorStake := 1, amount := 1, status := .active,
        deadline := 5, challenges := [], votes := [], stars := 0, starredBy := [] },
    points := p10 }

/-- C10 witness: double-toggling user 7's star on the concrete bet restores
the star count and the record set. -/
theorem C10_witness :
    (toggle_star (toggle_star dbStar 7) 7).bet.stars = dbStar.bet.stars ∧
    List.Perm (toggle_star (toggle_star dbStar 7) 7).bet.starredBy
      dbStar.bet.starredBy := by
  have h := C10_star_toggle dbStar 7 (by decide) (by decide)
  exact ⟨h.1.1, h.1.2.1⟩

end ProjectBay
